import Mathlib

/-!
Verification development for the teacher duty scheduler
(`apps/backend/services/solver/engine.py`).

The solver builds a CP-SAT model; we embed the model *constraints* as a
decidable feasibility predicate on candidate solutions (a solution assigns a
Boolean to every created variable), embed the pure helper functions
(`_is_teacher_available`, `_is_blocked_by_double_lesson`,
`_get_location_weight`, `_is_pinned`-style resolution, `search_candidates`)
directly, and embed the result-extraction loop of `solve()` as a function of
the chosen solution.  A "successful solve" returns some solution satisfying
all posted constraints, so properties of every successful solve are proved
for every feasible solution.
-/

namespace DutyScheduler

/-- One lesson slot of a teacher's weekly schedule (an entry of
`schedule_json`).  Optional fields absent in the JSON are modelled as the
empty string, matching the `slot.get('room_code', '')`-style access in the
source. -/
structure LessonSlot where
  day : String
  lesson_index : Int
  group_code : String := ""
  room_code : String := ""
  subject : String := ""
deriving DecidableEq

/-- A supervision zone from the config (`{id, name}`). -/
structure Zone where
  id : String
  name : String
deriving DecidableEq

/-- A break from the config (`{id, name, afterLesson, duration}`). -/
structure BreakInfo where
  id : String
  name : String
  afterLesson : Int
  duration : Int := 10
deriving DecidableEq

/-- A verified teacher row (`TeacherScheduleDB`): code, display name,
schedule, and `preferences_json['preferred_zones']`. -/
structure Teacher where
  teacher_code : String
  teacher_name : String := ""
  schedule_json : List LessonSlot
  preferred_zones : List String := []
deriving DecidableEq

/-- Tunable rules (`config['rules']`), after the defaulting performed by the
`int(self.config.get('rules', {}).get(key, default))` reads. -/
structure Rules where
  max_duties_per_day : Int := 2
  max_weekly_edge_duties : Int := 5
  max_long_break_duties : Int := 2
  max_fairness_deviation : Int := 2
  fairness_priority : Int := 50
deriving DecidableEq

/-- The solver's loaded data: teachers plus the config blob
(zones, breaks, requirements, topology, proximity, rules).
Python dicts are modelled as association lists looked up by key. -/
structure SolverInput where
  teachers : List Teacher
  zones : List Zone
  breaks : List BreakInfo
  reqs : List (String × List (String × Int)) := []
  topology : List (String × List String) := []
  proximity : List (String × List String) := []
  rules : Rules := {}
deriving DecidableEq

/-- A pinned-assignment request entry; every field is optional, matching
`pin.get(...)` access in the source. -/
structure Pin where
  teacher_code : Option String := none
  day : Option String := none
  break_index : Option Int := none
  zone_id : Option String := none
  zone_name : Option String := none
deriving DecidableEq

/-- `self.days = ['Mon', 'Tue', 'Wed', 'Thu', 'Fri']`. -/
def days : List String := ["Mon", "Tue", "Wed", "Thu", "Fri"]

/-- `self.reqs.get(z_id, {}).get(b_id, 0)`. -/
def reqFor (inp : SolverInput) (zid bid : String) : Int :=
  (((inp.reqs.lookup zid).getD []).lookup bid).getD 0

/-- ASCII lower-casing of one character, modelling Python's `.lower()` on
the identifiers and names appearing in the data. -/
def charLower (c : Char) : Char :=
  if c.isUpper then Char.ofNat (c.toNat + 32) else c

/-- ASCII upper-casing of one character, modelling Python's `.upper()`. -/
def charUpper (c : Char) : Char :=
  if c.isLower then Char.ofNat (c.toNat - 32) else c

/-- Python's `s.lower()`. -/
def pyLower (s : String) : String := ⟨s.toList.map charLower⟩

/-- Python's `s.upper()`. -/
def pyUpper (s : String) : String := ⟨s.toList.map charUpper⟩

def isSpaceChar (c : Char) : Bool :=
  c == ' ' || c == '\t' || c == '\n' || c == '\r'

/-- Python's `s.strip()`: drop whitespace from both ends. -/
def pyStrip (s : String) : String :=
  ⟨((s.toList.dropWhile isSpaceChar).reverse.dropWhile isSpaceChar).reverse⟩

/-- Character-list matching: does the second list start with the first? -/
def leadMatch : List Char → List Char → Bool
  | [], _ => true
  | _ :: _, [] => false
  | c :: cs, d :: ds => c == d && leadMatch cs ds

/-- Does `pat` occur as a contiguous run inside the character list? -/
def subMatch (pat : List Char) : List Char → Bool
  | [] => leadMatch pat []
  | c :: cs => leadMatch pat (c :: cs) || subMatch pat cs

/-- Python's `pat in s` substring test on strings. -/
def hasSub (s pat : String) : Bool := subMatch pat.toList s.toList

/-- `DutySolver._is_teacher_available`: the teacher has a lesson with index
`afterLesson` (just finished) or `afterLesson + 1` (about to start) on the
given day. -/
def isTeacherAvailable (t : Teacher) (day : String) (b : BreakInfo) : Bool :=
  (t.schedule_json.any fun s => s.day == day && s.lesson_index == b.afterLesson) ||
  (t.schedule_json.any fun s => s.day == day && s.lesson_index == b.afterLesson + 1)

/-- The last schedule slot matching a (day, lesson index) pair; the source's
loop keeps overwriting `lesson_before` / `lesson_after`, so the last match
wins. -/
def lastSlotAt (t : Teacher) (day : String) (idx : Int) : Option LessonSlot :=
  t.schedule_json.foldl
    (fun acc s => if s.day == day && s.lesson_index == idx then some s else acc) none

/-- `DutySolver._is_blocked_by_double_lesson`: lessons on both sides of the
break exist, both carry a non-empty `group_code`, and the group codes are
equal. -/
def isBlockedByDoubleLesson (t : Teacher) (day : String) (b : BreakInfo) : Bool :=
  match lastSlotAt t day b.afterLesson, lastSlotAt t day (b.afterLesson + 1) with
  | some sb, some sa =>
      sb.group_code != "" && sa.group_code != "" && sb.group_code == sa.group_code
  | _, _ => false

/-- The keyword chain mapping an upper-cased zone display name to a topology
key, exactly in the source's test order. -/
def topologyKeyOf (nm : String) : Option String :=
  if hasSub nm "BOISKO" then some "S1"
  else if hasSub nm "GIMN" then some "S2"
  else if hasSub nm "41" || hasSub nm "42" then some "S3"
  else if hasSub nm "PIWNICA" || hasSub nm "SZATNI" then some "S4"
  else if hasSub nm "13" || hasSub nm "14" then some "S5"
  else if hasSub nm "I PI" || hasSub nm "1. PI" then some "S6"
  else if hasSub nm "II PI" || hasSub nm "2. PI" then some "S7"
  else none

/-- `zone_rooms.get(key, [])`. -/
def roomsOf (topology : List (String × List String)) (k : String) : List String :=
  (topology.lookup k).getD []

/-- The `current_rooms` collection: upper-cased, stripped, non-empty room
codes of the teacher's lessons at `afterLesson` and `afterLesson + 1` on the
day, in schedule order. -/
def currentRoomsOf (t : Teacher) (day : String) (b : BreakInfo) : List String :=
  t.schedule_json.filterMap fun s =>
    if s.day == day then
      let room := pyUpper (pyStrip s.room_code)
      if room == "" then none
      else if s.lesson_index == b.afterLesson then some room
      else if s.lesson_index == b.afterLesson + 1 then some room
      else none
    else none

/-- The inner neighbor loop of `_get_location_weight`: for each neighbor key
holding the room, raise the running maximum to `80 - 15 * index`, where
`index` is `allowed_neighbors.index(n_key)` (first occurrence of the key). -/
def neighborFold (topology : List (String × List String)) (allowed : List String)
    (room : String) (m : Int) : Int :=
  allowed.foldl
    (fun acc n =>
      if room ∈ roomsOf topology n then
        max acc (80 - 15 * (allowed.indexOf n : Int))
      else acc) m

/-- The room loop of `_get_location_weight`: return 100 on a perfect match,
otherwise accumulate neighbor scores over the remaining rooms. -/
def scanRooms (perfect : List String) (topology : List (String × List String))
    (allowed : List String) : List String → Int → Int
  | [], m => m
  | r :: rs, m =>
      if r ∈ perfect then 100
      else scanRooms perfect topology allowed rs (neighborFold topology allowed r m)

/-- `DutySolver._get_location_weight`. -/
def getLocationWeight (inp : SolverInput) (t : Teacher) (day : String)
    (b : BreakInfo) (zone_id : String) : Int :=
  if zone_id ∈ t.preferred_zones then 2000
  else
    let current_rooms := currentRoomsOf t day b
    let target_name :=
      pyUpper (((inp.zones.find? fun z => z.id == zone_id).map Zone.name).getD "")
    match topologyKeyOf target_name with
    | none => 50
    | some key =>
        if current_rooms.isEmpty then 50
        else
          scanRooms (roomsOf inp.topology key) inp.topology
            ((inp.proximity.lookup key).getD []) current_rooms 10

/-- The `break_index_to_id` map: built by `map[int(afterLesson)] = b['id']`
over the breaks in order (so a later break with the same `afterLesson`
overwrites an earlier one), skipping `afterLesson == -1`. -/
def breakIndexToId (breaks : List BreakInfo) (idx : Int) : Option String :=
  if idx == -1 then none
  else ((breaks.filter fun b => b.afterLesson == idx).getLast?).map BreakInfo.id

/-- The `zone_name_to_id` map (`{z['name']: z['id']}`, later duplicates
overwrite earlier ones). -/
def zoneNameToId (zones : List Zone) (nm : String) : Option String :=
  ((zones.filter fun z => z.name == nm).getLast?).map Zone.id

/-- One pin's contribution to `pinned_whitelist`: requires truthy
`teacher_code`, `day` and a resolvable, truthy break id. -/
def pinWhitelistEntry (breaks : List BreakInfo) (p : Pin) :
    Option (String × String × String) :=
  match p.teacher_code, p.day, p.break_index with
  | some tc, some dy, some bi =>
      match breakIndexToId breaks bi with
      | some bid => if tc != "" && dy != "" && bid != "" then some (tc, dy, bid) else none
      | none => none
  | _, _, _ => none

/-- Membership of `(teacher_code, day, break_id)` in `pinned_whitelist`. -/
def inWhitelist (breaks : List BreakInfo) (pins : List Pin) (tc dy bid : String) : Bool :=
  pins.any fun p => pinWhitelistEntry breaks p == some (tc, dy, bid)

/-- The variable-creation guard in `solve()`: a `(teacher, day, break)` cell
gets variables for all zones iff the slot is whitelisted by a pin, or the
teacher is available and not blocked by a double lesson. -/
def eligibleCell (inp : SolverInput) (pins : List Pin) (t : Teacher) (d : String)
    (b : BreakInfo) : Bool :=
  inWhitelist inp.breaks pins t.teacher_code d b.id ||
    (isTeacherAvailable t d b && !isBlockedByDoubleLesson t d b)

/-- A key of the `shifts` dict: (teacher_code, day, break_id, zone_id). -/
abbrev Quad := String × String × String × String

/-- The variables created for one `(teacher, day, break)` cell: one per zone
when the cell is eligible, none otherwise. -/
def cellVars (inp : SolverInput) (pins : List Pin) (t : Teacher) (d : String)
    (b : BreakInfo) : List Quad :=
  if eligibleCell inp pins t d b then
    inp.zones.map fun z => (t.teacher_code, d, b.id, z.id)
  else []

/-- The variables created for one teacher on one day (breaks in input
order). -/
def dayVars (inp : SolverInput) (pins : List Pin) (t : Teacher) (d : String) :
    List Quad :=
  inp.breaks.flatMap fun b => cellVars inp pins t d b

/-- The variables created for one teacher (days Mon..Fri). -/
def teacherVars (inp : SolverInput) (pins : List Pin) (t : Teacher) : List Quad :=
  days.flatMap fun d => dayVars inp pins t d

/-- The insertion sequence of keys into the `shifts` dict: teachers in input
order, days Mon..Fri, breaks in input order, zones in input order, keeping
only eligible cells. -/
def createdVars (inp : SolverInput) (pins : List Pin) : List Quad :=
  inp.teachers.flatMap fun t => teacherVars inp pins t

/-- Deduplication keeping the first occurrence, as a Python dict does with
its keys. -/
def firstDedup {α : Type} [DecidableEq α] : List α → List α
  | [] => []
  | a :: as => a :: (firstDedup as).filter fun a' => a' ≠ a

/-- The status/log derivation applied to each extracted assignment in
`solve()` (proximity check, edge check, then the pin override which sets the
status to `"warning"` unconditionally). -/
def statusAndLogs (prox : Int) (has_before has_after pinned : Bool) :
    String × List String :=
  let st0 := "optimal"
  let logs0 : List String := []
  let p1 : String × List String :=
    if prox ≤ 20 then ("critical", logs0 ++ ["Far location"])
    else if prox < 80 then
      ((if st0 != "critical" then "warning" else st0), logs0 ++ ["Check location"])
    else (st0, logs0)
  let p2 : String × List String :=
    if !(has_before && has_after) then
      ((if p1.1 != "critical" then "warning" else p1.1), p1.2 ++ ["Edge duty"])
    else p1
  if pinned then ("warning", p2.2 ++ ["Locked by User"]) else p2

/-- Fallback values for the `next(...)` lookups in the extraction loop; the
lookups always succeed for keys taken from `createdVars`. -/
def defaultBreak : BreakInfo := { id := "", name := "", afterLesson := 999 }

def defaultTeacher : Teacher := { teacher_code := "", schedule_json := [] }

/-- One entry of the `result_schedule` list returned by `solve()`. -/
structure AssignmentRec where
  teacher_code : String
  day : String
  break_id : String
  break_name : String
  break_index : Int
  zone_id : String
  zone_name : String
  assign_status : String
  assign_logs : List String
  is_pinned : Bool
  is_manual : Bool
deriving DecidableEq

/-- Builds the result record for one chosen variable, as the extraction loop
of `solve()` does. -/
def mkRecord (inp : SolverInput) (pins : List Pin) (q : Quad) : AssignmentRec :=
  let tc := q.1
  let dy := q.2.1
  let bid := q.2.2.1
  let zid := q.2.2.2
  let z_name := ((inp.zones.find? fun z => z.id == zid).map Zone.name).getD zid
  let b_obj := inp.breaks.find? fun b => b.id == bid
  let b_name := match b_obj with | some b => b.name | none => bid
  let b_idx : Int := match b_obj with | some b => b.afterLesson | none => 999
  let teacher := (inp.teachers.find? fun t => t.teacher_code == tc).getD defaultTeacher
  let bb := b_obj.getD defaultBreak
  let prox := getLocationWeight inp teacher dy bb zid
  let has_before := teacher.schedule_json.any fun s =>
    s.day == dy && s.lesson_index == bb.afterLesson
  let has_after := teacher.schedule_json.any fun s =>
    s.day == dy && s.lesson_index == bb.afterLesson + 1
  let pinned := inWhitelist inp.breaks pins tc dy bid
  let sl := statusAndLogs prox has_before has_after pinned
  { teacher_code := tc, day := dy, break_id := bid, break_name := b_name,
    break_index := b_idx, zone_id := zid, zone_name := z_name,
    assign_status := sl.1, assign_logs := sl.2, is_pinned := pinned,
    is_manual := pinned }

/-- The `result_schedule` list: iterate the `shifts` dict in insertion order
(keys deduplicated keeping first occurrence), keep the variables the solver
set to 1, and build a record for each. -/
def extractSchedule (inp : SolverInput) (pins : List Pin) (sol : Quad → Bool) :
    List AssignmentRec :=
  ((firstDedup (createdVars inp pins)).filter sol).map (mkRecord inp pins)

/-- Teaching load: schedule entries with a non-empty subject
(`len([s for s in t.schedule_json if s.get('subject')])`). -/
def teachingHours (t : Teacher) : Nat :=
  (t.schedule_json.filter fun s => s.subject != "").length

/-- `total_slots_needed`: requirements summed over days, breaks, zones. -/
def totalSlotsNeeded (inp : SolverInput) : Int :=
  (days.flatMap fun _d =>
    inp.breaks.flatMap fun b => inp.zones.map fun z => reqFor inp z.id b.id).sum

/-- `total_teaching_hours`. -/
def totalTeachingHours (inp : SolverInput) : Nat :=
  (inp.teachers.map teachingHours).sum

/-- Python's `round`: round half to even. -/
def pyRound (q : ℚ) : ℤ :=
  let f := ⌊q⌋
  let r := q - f
  if r < 1/2 then f
  else if 1/2 < r then f + 1
  else if f % 2 = 0 then f else f + 1

/-- The per-teacher fair-share target
(`round(share * total_slots_needed)`; 0 when there are no teaching hours). -/
def teacherTarget (inp : SolverInput) (t : Teacher) : Int :=
  if 0 < totalTeachingHours inp then
    pyRound ((teachingHours t : ℚ) / (totalTeachingHours inp : ℚ) *
      (totalSlotsNeeded inp : ℚ))
  else 0

/-- `teacher_targets.get(code, 0)`: the dict is keyed by teacher code, so
with duplicate codes the last teacher's target wins. -/
def targetOfCode (inp : SolverInput) (tc : String) : Int :=
  match (inp.teachers.filter fun t => t.teacher_code == tc).getLast? with
  | some t => teacherTarget inp t
  | none => 0

/-- Python `int()` truncation toward zero on an exact rational. -/
def pyTrunc (q : ℚ) : ℤ := if q < 0 then -⌊-q⌋ else ⌊q⌋

/-- `FAIRNESS_WEIGHT` as computed in `solve()` (both occurrences compute the
same value).  Python float arithmetic agrees with exact rational arithmetic
for the integer `balance` values in the configured range 0..100, so the
embedding uses ℚ. -/
def fairnessWeight (balance : Int) : Int :=
  if balance ≤ 50 then pyTrunc ((5 : ℚ) + (balance : ℚ) * (9 / 10))
  else 50 + (balance - 50) * 9

/-- `EDGE_PENALTY_WEIGHT` as computed in `solve()`. -/
def edgePenaltyWeight (balance : Int) : Int :=
  if balance ≤ 50 then 10
  else pyTrunc ((10 : ℚ) + ((balance : ℚ) - 50) * (8 / 10))

/-- The teachers contributing a variable to a `(day, break, zone)` slot:
`potential = [shifts[t,d,b,z] for t in teachers if (t,d,b,z) in shifts]`. -/
def potentialTeachers (inp : SolverInput) (pins : List Pin) (d : String)
    (b : BreakInfo) (z : Zone) : List Teacher :=
  inp.teachers.filter fun t =>
    decide ((t.teacher_code, d, b.id, z.id) ∈ createdVars inp pins)

/-- The value of `sum(potential)` under a candidate solution. -/
def slotSum (inp : SolverInput) (pins : List Pin) (sol : Quad → Bool) (d : String)
    (b : BreakInfo) (z : Zone) : Nat :=
  ((potentialTeachers inp pins d b z).filter fun t =>
    sol (t.teacher_code, d, b.id, z.id)).length

/-- Constraint block 1 of `solve()` (zone requirements): `r == 0` forces the
slot empty (when any variable exists); `0 < potential < r` posts
`sum <= len(potential)`; otherwise `sum == r`. -/
def coverageOK (inp : SolverInput) (pins : List Pin) (sol : Quad → Bool) : Bool :=
  days.all fun d => inp.breaks.all fun b => inp.zones.all fun z =>
    let r := reqFor inp z.id b.id
    let n := (potentialTeachers inp pins d b z).length
    let s := slotSum inp pins sol d b z
    if r == 0 then n == 0 || s == 0
    else if (n : Int) < r then s ≤ n
    else (s : Int) == r

/-- The `concurrent_shifts` sum of constraint block 2b for one teacher, day
and `afterLesson` value: variables over all breaks sharing that value and
all zones. -/
def groupSum (inp : SolverInput) (pins : List Pin) (sol : Quad → Bool) (t : Teacher)
    (d : String) (idxVal : Int) : Nat :=
  (((inp.breaks.filter fun b => b.afterLesson == idxVal).flatMap fun b =>
      inp.zones.map fun z => (t.teacher_code, d, b.id, z.id)).filter fun q =>
    decide (q ∈ createdVars inp pins) && sol q).length

/-- Constraint block 2b (one place at a time): for each teacher, day and
`afterLesson` group, at most one concurrent variable is set. -/
def concurrencyOK (inp : SolverInput) (pins : List Pin) (sol : Quad → Bool) : Bool :=
  inp.teachers.all fun t => days.all fun d =>
    (inp.breaks.map (fun b => b.afterLesson)).all fun idxVal =>
      groupSum inp pins sol t d idxVal ≤ 1

/-- The `daily_shifts` sum of constraint block 3. -/
def dailySum (inp : SolverInput) (pins : List Pin) (sol : Quad → Bool) (t : Teacher)
    (d : String) : Nat :=
  ((inp.breaks.flatMap fun b =>
      inp.zones.map fun z => (t.teacher_code, d, b.id, z.id)).filter fun q =>
    decide (q ∈ createdVars inp pins) && sol q).length

/-- Constraint block 3 (daily limit). -/
def dailyOK (inp : SolverInput) (pins : List Pin) (sol : Quad → Bool) : Bool :=
  inp.teachers.all fun t => days.all fun d =>
    (dailySum inp pins sol t d : Int) ≤ inp.rules.max_duties_per_day

/-- The `long_break_shifts` sum of constraint block 4 (breaks with
`duration >= 20`). -/
def longBreakSum (inp : SolverInput) (pins : List Pin) (sol : Quad → Bool)
    (t : Teacher) : Nat :=
  ((days.flatMap fun d =>
      (inp.breaks.filter fun b => 20 ≤ b.duration).flatMap fun b =>
        inp.zones.map fun z => (t.teacher_code, d, b.id, z.id)).filter fun q =>
    decide (q ∈ createdVars inp pins) && sol q).length

/-- Constraint block 4 (long-break weekly limit). -/
def longBreakOK (inp : SolverInput) (pins : List Pin) (sol : Quad → Bool) : Bool :=
  inp.teachers.all fun t =>
    (longBreakSum inp pins sol t : Int) ≤ inp.rules.max_long_break_duties

/-- A break is an edge for a teacher on a day: adjacent lesson on exactly one
side. -/
def isEdgeBreak (t : Teacher) (d : String) (b : BreakInfo) : Bool :=
  let has_before := t.schedule_json.any fun s =>
    s.day == d && s.lesson_index == b.afterLesson
  let has_after := t.schedule_json.any fun s =>
    s.day == d && s.lesson_index == b.afterLesson + 1
  (has_before || has_after) && !(has_before && has_after)

/-- The `weekly_edge_vars` sum of the per-teacher edge cap. -/
def edgeSum (inp : SolverInput) (pins : List Pin) (sol : Quad → Bool)
    (t : Teacher) : Nat :=
  ((days.flatMap fun d =>
      (inp.breaks.filter fun b => isEdgeBreak t d b).flatMap fun b =>
        inp.zones.map fun z => (t.teacher_code, d, b.id, z.id)).filter fun q =>
    decide (q ∈ createdVars inp pins) && sol q).length

/-- The weekly edge cap constraint. -/
def edgeOK (inp : SolverInput) (pins : List Pin) (sol : Quad → Bool) : Bool :=
  inp.teachers.all fun t =>
    (edgeSum inp pins sol t : Int) ≤ inp.rules.max_weekly_edge_duties

/-- The `all_shifts` key list for one teacher code: all existing variables
over days, breaks, zones. -/
def allShiftsFor (inp : SolverInput) (pins : List Pin) (tc : String) : List Quad :=
  (days.flatMap fun d =>
    inp.breaks.flatMap fun b =>
      inp.zones.map fun z => (tc, d, b.id, z.id)).filter fun q =>
    decide (q ∈ createdVars inp pins)

/-- `total_assigned` for one teacher code. -/
def totalFor (inp : SolverInput) (pins : List Pin) (sol : Quad → Bool)
    (tc : String) : Nat :=
  ((allShiftsFor inp pins tc).filter sol).length

/-- The fairness constraints of `solve()` for teachers with at least one
variable: the `total` IntVar has range 0..50, the `diff` IntVar range
-50..50, and `deviation = |diff|` is bounded by `max_fairness_deviation`. -/
def fairnessOK (inp : SolverInput) (pins : List Pin) (sol : Quad → Bool) : Bool :=
  inp.teachers.all fun t =>
    (allShiftsFor inp pins t.teacher_code).isEmpty ||
      (let total := totalFor inp pins sol t.teacher_code
       let target := targetOfCode inp t.teacher_code
       decide (total ≤ 50) &&
       decide (((total : Int) - target).natAbs ≤ 50) &&
       decide ((((total : Int) - target).natAbs : Int) ≤ inp.rules.max_fairness_deviation))

/-- Zone-id resolution for a pin in the pin-forcing block of `solve()`:
a direct `zone_id` wins; otherwise the `zone_name` is looked up exactly,
then (when the exact lookup was falsy and the name truthy) case-insensitively
without trimming. -/
def resolvePinZone (zones : List Zone) (p : Pin) : Option String :=
  match p.zone_id with
  | some zid => some zid
  | none =>
      match p.zone_name with
      | none => none
      | some znm =>
          let exact := zoneNameToId zones znm
          if (exact == none || exact == some "") && znm != "" then
            match zones.find? fun z => pyLower z.name == pyLower znm with
            | some z => some z.id
            | none => exact
          else exact

/-- Full resolution of a pin to a variable key; `none` when any component is
missing or falsy (the source prints a warning and skips the pin). -/
def resolvedPinQuad (inp : SolverInput) (p : Pin) : Option Quad :=
  match p.teacher_code, p.day with
  | some tc, some dy =>
      let bid? := match p.break_index with
        | some bi => breakIndexToId inp.breaks bi
        | none => none
      match bid?, resolvePinZone inp.zones p with
      | some bid, some zid =>
          if tc != "" && dy != "" && bid != "" && zid != "" then
            some (tc, dy, bid, zid)
          else none
      | _, _ => none
  | _, _ => none

/-- The pin-forcing constraints: every pin that resolves to an existing
variable forces that variable to 1. -/
def pinsForcedOK (inp : SolverInput) (pins : List Pin) (sol : Quad → Bool) : Bool :=
  pins.all fun p =>
    match resolvedPinQuad inp p with
    | some q => !(decide (q ∈ createdVars inp pins)) || sol q
    | none => true

/-- A candidate solution satisfies all constraints posted on the CP-SAT
model.  Any successful `solve()` returns the extraction of such a
solution. -/
def feasible (inp : SolverInput) (pins : List Pin) (sol : Quad → Bool) : Bool :=
  coverageOK inp pins sol && concurrencyOK inp pins sol && dailyOK inp pins sol &&
  longBreakOK inp pins sol && edgeOK inp pins sol && fairnessOK inp pins sol &&
  pinsForcedOK inp pins sol

/-- Input invariants assumed by the data model: unique teacher codes, break
ids and zone ids. -/
def WFInput (inp : SolverInput) : Prop :=
  (inp.teachers.map Teacher.teacher_code).Nodup ∧
  (inp.breaks.map BreakInfo.id).Nodup ∧
  (inp.zones.map Zone.id).Nodup

instance (inp : SolverInput) : Decidable (WFInput inp) := by
  unfold WFInput; exact inferInstance

/-- One entry of the `search_candidates` result. -/
structure Candidate where
  teacher_code : String
  teacher_name : String
  score : Int
  status : String
  reason : String
deriving DecidableEq

/-- The per-teacher scoring of `search_candidates`. -/
def scoreCandidate (inp : SolverInput) (t : Teacher) (day : String)
    (tb : BreakInfo) (zid : String) : Candidate :=
  let base : Int × String × List String :=
    if !isTeacherAvailable t day tb then (-100, "BUSY", ["Ma lekcję w tym czasie"])
    else if isBlockedByDoubleLesson t day tb then
      (50 - 50, "WARNING", ["Blok lekcyjny (ta sama klasa)"])
    else (50, "OK", [])
  let score := base.1
  let status := base.2.1
  let msgs := base.2.2
  let scored : Int × List String :=
    if status != "BUSY" then
      let loc := getLocationWeight inp t day tb zid
      let score := score + (loc - 50)
      let msgs := msgs ++
        (if 100 ≤ loc then ["Idealna lokalizacja"]
         else if loc < 50 then ["Daleko od sali"] else [])
      let has_before := t.schedule_json.any fun s =>
        s.day == day && s.lesson_index == tb.afterLesson
      let has_after := t.schedule_json.any fun s =>
        s.day == day && s.lesson_index == tb.afterLesson + 1
      if has_before && has_after then (score + 20, msgs ++ ["Okienko (Sandwich)"])
      else (score, msgs)
    else (score, msgs)
  { teacher_code := t.teacher_code, teacher_name := t.teacher_name,
    score := scored.1, status := status,
    reason := String.intercalate ", " scored.2 }

/-- The comparison used by the final sort of `search_candidates`: ascending
in the key `(-score, teacher_name)`. -/
def candLE (c1 c2 : Candidate) : Bool :=
  c2.score < c1.score || (c1.score == c2.score && decide (c1.teacher_name ≤ c2.teacher_name))

/-- The synthetic error entry returned when the zone or break cannot be
resolved. -/
def errCandidate (tz : Option Zone) (tb : Option BreakInfo) : Candidate :=
  { teacher_code := "ERR", teacher_name := "Invalid Context", score := 0,
    status := "ERROR",
    reason := "Zone/Break not found. Z=" ++ (if tz.isSome then "True" else "False")
      ++ " B=" ++ (if tb.isSome then "True" else "False") }

/-- `DutySolver.search_candidates`: resolve the zone (case-insensitive,
trimmed) and the break (first `afterLesson` match), score every teacher and
sort stably by `(-score, teacher_name)`. -/
def searchCandidates (inp : SolverInput) (day : String) (break_index : Int)
    (zone_name : String) : List Candidate :=
  let target_zone := inp.zones.find? fun z =>
    pyLower (pyStrip z.name) == pyLower (pyStrip zone_name)
  let target_break := inp.breaks.find? fun b => b.afterLesson == break_index
  match target_zone, target_break with
  | some tz, some tb =>
      (inp.teachers.map fun t => scoreCandidate inp t day tb tz.id).mergeSort candLE
  | tz, tb => [errCandidate tz tb]

/-- A break is a sandwich for a teacher on a day: lessons on both sides. -/
def isSandwichBreak (t : Teacher) (d : String) (b : BreakInfo) : Bool :=
  (t.schedule_json.any fun s => s.day == d && s.lesson_index == b.afterLesson) &&
  (t.schedule_json.any fun s => s.day == d && s.lesson_index == b.afterLesson + 1)

/-- Neighbor candidate scores as the spec's §4.2 words them: `80 - 15*i` for
each 0-indexed position `i` of the proximity list whose key's topology
contains the room. -/
def claimNeighborCands (topology : List (String × List String))
    (allowed : List String) (room : String) : List Int :=
  allowed.enum.filterMap fun p =>
    if room ∈ roomsOf topology p.2 then some (80 - 15 * (p.1 : Int)) else none

/-- Location score exactly as claim C5 states it: the final step returns the
maximum candidate, or 10 only when no room matched any known neighbor. -/
def locWeightClaim (inp : SolverInput) (t : Teacher) (day : String)
    (b : BreakInfo) (zone_id : String) : Int :=
  if zone_id ∈ t.preferred_zones then 2000
  else
    let current_rooms := currentRoomsOf t day b
    let target_name :=
      pyUpper (((inp.zones.find? fun z => z.id == zone_id).map Zone.name).getD "")
    match topologyKeyOf target_name with
    | none => 50
    | some key =>
        if current_rooms.isEmpty then 50
        else
          let perfect := roomsOf inp.topology key
          if current_rooms.any fun r => r ∈ perfect then 100
          else
            let allowed := (inp.proximity.lookup key).getD []
            let cands := current_rooms.flatMap (claimNeighborCands inp.topology allowed)
            match cands.max? with
            | some v => v
            | none => 10

/-- Location score as amended: the final step never drops below the floor 10,
i.e. it returns the maximum of 10 and all neighbor candidates. -/
def locWeightAmended (inp : SolverInput) (t : Teacher) (day : String)
    (b : BreakInfo) (zone_id : String) : Int :=
  if zone_id ∈ t.preferred_zones then 2000
  else
    let current_rooms := currentRoomsOf t day b
    let target_name :=
      pyUpper (((inp.zones.find? fun z => z.id == zone_id).map Zone.name).getD "")
    match topologyKeyOf target_name with
    | none => 50
    | some key =>
        if current_rooms.isEmpty then 50
        else
          let perfect := roomsOf inp.topology key
          if current_rooms.any fun r => r ∈ perfect then 100
          else
            let allowed := (inp.proximity.lookup key).getD []
            (current_rooms.flatMap (claimNeighborCands inp.topology allowed)).foldl max 10

/-- Pin zone resolution as claim C7 states it: `zone_id` wins; otherwise the
`zone_name` is matched case-insensitively and trimmed. -/
def resolvePinZoneClaim (zones : List Zone) (p : Pin) : Option String :=
  match p.zone_id with
  | some zid => some zid
  | none =>
      match p.zone_name with
      | none => none
      | some znm =>
          (zones.find? fun z => pyLower (pyStrip z.name) == pyLower (pyStrip znm)).map Zone.id

/-- `FAIRNESS_WEIGHT` as claim C9 states it, with explicit floors. -/
def fairnessWeightClaim (P : Int) : Int :=
  if P ≤ 50 then ⌊(5 : ℚ) + (9 / 10) * (P : ℚ)⌋
  else ⌊(50 : ℚ) + 9 * ((P : ℚ) - 50)⌋

/-- `EDGE_PENALTY_WEIGHT` as claim C9 states it. -/
def edgePenaltyWeightClaim (P : Int) : Int :=
  if P ≤ 50 then 10
  else ⌊(10 : ℚ) + (8 / 10) * ((P : ℚ) - 50)⌋

/-- Candidate score as claim C6 describes it: base 50; unavailable scores
−100 with no further scoring; blocked loses 50; every non-BUSY teacher adds
`location_score − 50`, plus 20 for a sandwich break. -/
def claimCandScore (inp : SolverInput) (t : Teacher) (day : String)
    (tb : BreakInfo) (zid : String) : Int :=
  if !isTeacherAvailable t day tb then -100
  else
    50 + (if isBlockedByDoubleLesson t day tb then -50 else 0)
      + (getLocationWeight inp t day tb zid - 50)
      + (if isSandwichBreak t day tb then 20 else 0)

/-- Candidate status as claim C6 describes it. -/
def claimCandStatus (t : Teacher) (day : String) (tb : BreakInfo) : String :=
  if !isTeacherAvailable t day tb then "BUSY"
  else if isBlockedByDoubleLesson t day tb then "WARNING"
  else "OK"

section Helpers

variable {α β : Type}

theorem countP_flatMap (l : List α) (f : α → List β) (p : β → Bool) :
    (l.flatMap f).countP p = (l.map fun a => (f a).countP p).sum := by
  induction l with
  | nil => simp
  | cons a l ih => simp [List.flatMap_cons, List.countP_append, ih]

theorem sum_map_eq_single [DecidableEq α] (l : List α) (f : α → ℕ) (a : α)
    (hnd : l.Nodup) (ha : a ∈ l) (hz : ∀ a' ∈ l, a' ≠ a → f a' = 0) :
    (l.map f).sum = f a := by
  induction l with
  | nil => cases ha
  | cons b l ih =>
      rcases List.mem_cons.mp ha with h | h
      · subst h
        have hnotmem : a ∉ l := (List.nodup_cons.mp hnd).1
        have : ∀ x ∈ l.map f, x = 0 := by
          intro x hx
          rcases List.mem_map.mp hx with ⟨a', ha', rfl⟩
          exact hz a' (List.mem_cons_of_mem _ ha') (fun h => hnotmem (h ▸ ha'))
        simp [List.sum_eq_zero this]
      · have hb : b ≠ a := by
          rintro rfl
          exact (List.nodup_cons.mp hnd).1 h
        have := ih (List.nodup_cons.mp hnd).2 h
          (fun a' ha' => hz a' (List.mem_cons_of_mem _ ha'))
        simp [hz b (List.mem_cons_self _ _) hb, this]

theorem sum_map_ite_eq_countP (l : List α) (p : α → Bool) :
    (l.map fun a => if p a then 1 else 0).sum = l.countP p := by
  induction l with
  | nil => simp
  | cons a l ih =>
      by_cases h : p a <;> simp [List.countP_cons, h, ih, Nat.add_comm]

theorem sum_map_filter_of_vanish (l : List α) (c : α → Bool) (f : α → ℕ)
    (hz : ∀ a ∈ l, c a = false → f a = 0) :
    (l.map f).sum = ((l.filter c).map f).sum := by
  induction l with
  | nil => simp
  | cons a l ih =>
      by_cases h : c a
      · simp [List.filter_cons, h, ih fun a' ha' => hz a' (List.mem_cons_of_mem _ ha')]
      · have h0 := hz a (List.mem_cons_self _ _) (by simpa using h)
        simp [List.filter_cons, h, h0, ih fun a' ha' => hz a' (List.mem_cons_of_mem _ ha')]

theorem firstDedup_subset [DecidableEq α] {l : List α} {a : α}
    (h : a ∈ firstDedup l) : a ∈ l := by
  induction l with
  | nil => cases h
  | cons b l ih =>
      rcases List.mem_cons.mp h with h | h
      · exact h ▸ List.mem_cons_self _ _
      · exact List.mem_cons_of_mem _ (ih (List.mem_filter.mp h).1)

theorem firstDedup_eq_self [DecidableEq α] {l : List α} (h : l.Nodup) :
    firstDedup l = l := by
  induction l with
  | nil => rfl
  | cons a l ih =>
      have h1 : a ∉ l := (List.nodup_cons.mp h).1
      have h2 := ih (List.nodup_cons.mp h).2
      simp only [firstDedup, h2]
      rw [List.filter_eq_self.mpr]
      intro b hb
      simp only [decide_eq_true_eq]
      intro hba
      exact h1 (hba ▸ hb)

theorem breakIndexToId_mem {breaks : List BreakInfo} {idx : Int} {bid : String}
    (h : breakIndexToId breaks idx = some bid) :
    ∃ b, b ∈ breaks ∧ b.id = bid ∧ b.afterLesson = idx := by
  unfold breakIndexToId at h
  rw [if_neg] at h
  · rcases Option.map_eq_some'.mp h with ⟨b, hb, rfl⟩
    have hmem := List.mem_of_getLast?_eq_some hb
    have := List.mem_filter.mp hmem
    exact ⟨b, this.1, rfl, by simpa using this.2⟩
  · intro hcontra
    rw [if_pos hcontra] at h
    cases h

end Helpers

/-- Claim C9: with `P = fairness_priority` (an integer in the configured
range 0..100), the objective weights used by `solve()` are exactly
`FAIRNESS_WEIGHT = floor(5 + 0.9 P)` and `EDGE_PENALTY_WEIGHT = 10` when
`P ≤ 50`, and `FAIRNESS_WEIGHT = floor(50 + 9 (P − 50))`,
`EDGE_PENALTY_WEIGHT = floor(10 + 0.8 (P − 50))` when `P > 50`; all
arithmetic is rounded down to an integer before entering the model. -/
theorem c9_objective_weights (P : Int) (h0 : 0 ≤ P) (h1 : P ≤ 100) :
    fairnessWeight P = fairnessWeightClaim P ∧
    edgePenaltyWeight P = edgePenaltyWeightClaim P := by
  have hq : (0 : ℚ) ≤ (P : ℚ) := by exact_mod_cast h0
  constructor
  · unfold fairnessWeight fairnessWeightClaim pyTrunc
    by_cases hb : P ≤ 50
    · have hpos : ¬ ((5 : ℚ) + (P : ℚ) * (9 / 10) < 0) := by nlinarith
      rw [if_pos hb, if_pos hb, if_neg hpos, mul_comm]
    · have hcast : (50 : ℚ) + 9 * ((P : ℚ) - 50) = ((50 + (P - 50) * 9 : ℤ) : ℚ) := by
        push_cast; ring
      rw [if_neg hb, if_neg hb, hcast, Int.floor_intCast]
  · unfold edgePenaltyWeight edgePenaltyWeightClaim pyTrunc
    by_cases hb : P ≤ 50
    · rw [if_pos hb, if_pos hb]
    · have h50 : (50 : ℚ) ≤ (P : ℚ) := by
        have : (50 : ℤ) ≤ P := by omega
        exact_mod_cast this
      have hpos : ¬ ((10 : ℚ) + ((P : ℚ) - 50) * (8 / 10) < 0) := by nlinarith
      rw [if_neg hb, if_neg hb, if_neg hpos, mul_comm]

/-- Witness for C9 at the concrete slider value 73. -/
theorem c9_objective_weights_witness :
    (0 : Int) ≤ 73 ∧ (73 : Int) ≤ 100 ∧
    (fairnessWeight 73 = fairnessWeightClaim 73 ∧
     edgePenaltyWeight 73 = edgePenaltyWeightClaim 73) :=
  ⟨by norm_num, by norm_num, c9_objective_weights 73 (by norm_num) (by norm_num)⟩

/-- Counterexample to claim C7: in `solve()` the zone-name fallback
lower-cases but does not trim, so a pin whose `zone_name` carries trailing
whitespace fails to resolve, while the claim's trimmed case-insensitive rule
would resolve it. -/
theorem c7_counterexample :
    resolvePinZone [⟨"z1", "Boisko"⟩] { zone_name := some "Boisko " } = none ∧
    resolvePinZoneClaim [⟨"z1", "Boisko"⟩] { zone_name := some "Boisko " } = some "z1" := by
  constructor <;> decide

/-- Claim C7 as amended: `break_index` is matched against `after_lesson`;
when both `zone_id` and `zone_name` are present `zone_id` wins; a zone given
only by `zone_name` is matched against zone display names case-insensitively
but WITHOUT trimming surrounding whitespace. -/
theorem c7_pin_resolution (zones : List Zone) (breaks : List BreakInfo) (p : Pin) :
    (∀ zid, p.zone_id = some zid → resolvePinZone zones p = some zid) ∧
    (∀ idx bid, breakIndexToId breaks idx = some bid →
      ∃ b, b ∈ breaks ∧ b.id = bid ∧ b.afterLesson = idx) ∧
    (∀ znm, p.zone_id = none → p.zone_name = some znm →
      (∀ z, z ∈ zones → pyLower z.name ≠ pyLower znm) →
      resolvePinZone zones p = none) ∧
    (∀ znm z, p.zone_id = none → p.zone_name = some znm → znm ≠ "" → z ∈ zones →
      pyLower z.name = pyLower znm →
      ∃ z', z' ∈ zones ∧ resolvePinZone zones p = some z'.id ∧
        pyLower z'.name = pyLower znm) := by
  refine ⟨?_, ?_, ?_, ?_⟩
  · intro zid h
    simp [resolvePinZone, h]
  · intro idx bid h
    exact breakIndexToId_mem h
  · intro znm hzid hznm hno
    have hexact : zoneNameToId zones znm = none := by
      unfold zoneNameToId
      rw [List.filter_eq_nil_iff.mpr]
      · rfl
      · intro z hz hzeq
        exact hno z hz (by rw [show z.name = znm by simpa using hzeq])
    simp only [resolvePinZone, hzid, hznm, hexact]
    by_cases hz0 : znm = ""
    · simp [hz0]
    · have hfind : (zones.find? fun z => pyLower z.name == pyLower znm) = none := by
        rw [List.find?_eq_none]
        intro z hz
        simpa using hno z hz
      simp [hz0, hfind]
  · intro znm z hzid hznm hz0 hzmem hzl
    simp only [resolvePinZone, hzid, hznm]
    have hfind : ∃ z₀, (zones.find? fun z' => pyLower z'.name == pyLower znm) = some z₀ := by
      cases hf : zones.find? fun z' => pyLower z'.name == pyLower znm with
      | none =>
          exact absurd (by simpa using hzl) (by simpa using List.find?_eq_none.mp hf z hzmem)
      | some z₀ => exact ⟨z₀, rfl⟩
    rcases hfind with ⟨z₀, hf⟩
    have hz₀mem := List.mem_of_find?_eq_some hf
    have hz₀pred : pyLower z₀.name = pyLower znm := by
      simpa using List.find?_some hf
    cases hex : zoneNameToId zones znm with
    | none => exact ⟨z₀, hz₀mem, by simp [hex, hz0, hf], hz₀pred⟩
    | some zid =>
        by_cases hzid0 : zid = ""
        · subst hzid0
          exact ⟨z₀, hz₀mem, by simp [hex, hz0, hf], hz₀pred⟩
        · refine ?_
          unfold zoneNameToId at hex
          rcases Option.map_eq_some'.mp hex with ⟨z', hz', rfl⟩
          have hmem := List.mem_of_getLast?_eq_some hz'
          have hprops := List.mem_filter.mp hmem
          refine ⟨z', hprops.1, ?_, ?_⟩
          · have hfalse : ((some z'.id == (none : Option String)) ||
                (some z'.id == some "")) = false := by
              simp [hzid0]
            simp only [zoneNameToId, hz', Option.map_some', hfalse]
            simp
          · rw [show z'.name = znm by simpa using hprops.2]

/-- Witness for C7's amended statement at concrete inputs. -/
theorem c7_pin_resolution_witness :
    resolvePinZone [⟨"z1", "Boisko"⟩]
      { zone_id := some "zX", zone_name := some "Boisko" } = some "zX" ∧
    (∃ b, b ∈ [(⟨"b1", "P1", 4, 10⟩ : BreakInfo)] ∧ b.id = "b1" ∧ b.afterLesson = 4) :=
  ⟨(c7_pin_resolution [⟨"z1", "Boisko"⟩] [] _).1 "zX" rfl,
   (c7_pin_resolution [] [(⟨"b1", "P1", 4, 10⟩ : BreakInfo)] {}).2.1 4 "b1" (by decide)⟩


/-- Field projections of `mkRecord` in terms of the variable key. -/
theorem mkRecord_fields (inp : SolverInput) (pins : List Pin) (q : Quad) :
    (mkRecord inp pins q).teacher_code = q.1 ∧
    (mkRecord inp pins q).day = q.2.1 ∧
    (mkRecord inp pins q).break_id = q.2.2.1 ∧
    (mkRecord inp pins q).zone_id = q.2.2.2 ∧
    (mkRecord inp pins q).is_pinned = inWhitelist inp.breaks pins q.1 q.2.1 q.2.2.1 ∧
    (mkRecord inp pins q).is_manual = inWhitelist inp.breaks pins q.1 q.2.1 q.2.2.1 :=
  ⟨rfl, rfl, rfl, rfl, rfl, rfl⟩

/-- Concrete instance for claim C4: one teacher pinned to a slot whose
location score is 10. -/
def c4Teacher : Teacher :=
  { teacher_code := "T1",
    schedule_json := [{ day := "Mon", lesson_index := 4, room_code := "10" },
                      { day := "Mon", lesson_index := 5, room_code := "10" }] }

def c4Break : BreakInfo := { id := "b1", name := "P1", afterLesson := 4 }

def c4Inp : SolverInput :=
  { teachers := [c4Teacher],
    zones := [⟨"z1", "Boisko"⟩],
    breaks := [c4Break],
    reqs := [("z1", [("b1", 1)])],
    topology := [("S1", ["99"])] }

def c4Pins : List Pin :=
  [{ teacher_code := some "T1", day := some "Mon", break_index := some 4,
     zone_id := some "z1" }]

def c4Sol : Quad → Bool := fun q => q == ("T1", "Mon", "b1", "z1")

/-- Counterexample to claim C4: in this feasible solve, the pinned
assignment has location score 10 (≤ 20), yet its `assign_status` is
`"warning"`, not `"critical"`: the pin branch overwrites the critical
status, so severity is demoted. -/
theorem c4_counterexample :
    feasible c4Inp c4Pins c4Sol = true ∧
    getLocationWeight c4Inp c4Teacher "Mon" c4Break "z1" = 10 ∧
    (extractSchedule c4Inp c4Pins c4Sol).map
      (fun r => (r.assign_status, r.assign_logs, r.is_pinned)) =
      [("warning", ["Far location", "Locked by User"], true)] := by
  refine ⟨by decide, by decide, by decide⟩

/-- Claim C4 amended: for an unpinned assignment severity only escalates
(critical iff score ≤ 20, else warning iff score < 80 or the break is not a
sandwich, else optimal), and the log "Far location" is emitted whenever the
score is ≤ 20; but pinning appends "Locked by User" and sets the status to
"warning" unconditionally, demoting an already-critical status. -/
theorem c4_status_derivation (prox : Int) (hb ha pinned : Bool) :
    (pinned = true → (statusAndLogs prox hb ha pinned).1 = "warning" ∧
      "Locked by User" ∈ (statusAndLogs prox hb ha pinned).2) ∧
    (prox ≤ 20 → "Far location" ∈ (statusAndLogs prox hb ha pinned).2) ∧
    (pinned = false → (statusAndLogs prox hb ha pinned).1 =
      (if prox ≤ 20 then "critical"
       else if prox < 80 ∨ (hb && ha) = false then "warning" else "optimal")) := by
  cases pinned <;> cases hb <;> cases ha <;>
    by_cases h1 : prox ≤ 20 <;> by_cases h2 : prox < 80 <;>
      simp [statusAndLogs, h1, h2]

/-- Witness for C4's amended statement: a pinned far-location slot is
reported as warning with the "Far location" log present. -/
theorem c4_status_derivation_witness :
    (statusAndLogs 10 true true true).1 = "warning" ∧
    "Far location" ∈ (statusAndLogs 10 true true true).2 :=
  ⟨((c4_status_derivation 10 true true true).1 rfl).1,
   (c4_status_derivation 10 true true true).2.1 (by norm_num)⟩

/-- Claim C10: a pin whose `(teacher_code, day, break_index)` resolves makes
the whole `(teacher, day, break)` cell eligible, so variables are created
for every zone (availability and double-lesson checks suppressed), and any
returned assignment of that teacher at that `(day, break)` carries
`is_pinned = true` and `is_manual = true`, regardless of the pin's zone. -/
theorem c10_pin_whitelist (inp : SolverInput) (pins : List Pin) (sol : Quad → Bool)
    (p : Pin) (t : Teacher) (tc d : String) (bi : Int) (bid : String)
    (hp : p ∈ pins) (htc : p.teacher_code = some tc) (hd : p.day = some d)
    (hbi : p.break_index = some bi) (hbid : breakIndexToId inp.breaks bi = some bid)
    (htc0 : tc ≠ "") (hd0 : d ≠ "") (hbid0 : bid ≠ "")
    (ht : t ∈ inp.teachers) (htcode : t.teacher_code = tc) (hdays : d ∈ days) :
    (∀ z ∈ inp.zones, (tc, d, bid, z.id) ∈ createdVars inp pins) ∧
    (∀ r ∈ extractSchedule inp pins sol,
      r.teacher_code = tc → r.day = d → r.break_id = bid →
      r.is_pinned = true ∧ r.is_manual = true) := by
  have hwl : inWhitelist inp.breaks pins tc d bid = true := by
    unfold inWhitelist
    rw [List.any_eq_true]
    refine ⟨p, hp, ?_⟩
    simp only [pinWhitelistEntry, htc, hd, hbi, hbid]
    simp [htc0, hd0, hbid0]
  constructor
  · intro z hz
    rcases breakIndexToId_mem hbid with ⟨b, hbmem, hbid', _⟩
    have helig : eligibleCell inp pins t d b = true := by
      unfold eligibleCell
      rw [htcode, hbid', hwl]
      simp
    unfold createdVars teacherVars dayVars cellVars
    rw [List.mem_flatMap]
    refine ⟨t, ht, ?_⟩
    rw [List.mem_flatMap]
    refine ⟨d, hdays, ?_⟩
    rw [List.mem_flatMap]
    refine ⟨b, hbmem, ?_⟩
    rw [if_pos helig, List.mem_map]
    exact ⟨z, hz, by rw [htcode, hbid']⟩
  · intro r hr h1 h2 h3
    unfold extractSchedule at hr
    rcases List.mem_map.mp hr with ⟨q, _, rfl⟩
    obtain ⟨f1, f2, f3, _, f5, f6⟩ := mkRecord_fields inp pins q
    rw [f1] at h1
    rw [f2] at h2
    rw [f3] at h3
    rw [f5, f6, h1, h2, h3]
    exact ⟨hwl, hwl⟩

/-- Concrete instance for claim C10: an unavailable teacher (empty schedule)
is pinned with a zone id that resolves to no configured zone. -/
def c10Teacher : Teacher := { teacher_code := "T1", schedule_json := [] }

def c10Pin : Pin :=
  { teacher_code := some "T1", day := some "Mon", break_index := some 4,
    zone_id := some "zWRONG" }

def c10Inp : SolverInput :=
  { teachers := [c10Teacher],
    zones := [⟨"z1", "A"⟩, ⟨"z2", "B"⟩],
    breaks := [{ id := "b1", name := "P1", afterLesson := 4 }] }

def c10Sol : Quad → Bool := fun _ => false

/-- Witness for C10 on the concrete instance. -/
theorem c10_pin_whitelist_witness :
    (∀ z ∈ c10Inp.zones, ("T1", "Mon", "b1", z.id) ∈ createdVars c10Inp [c10Pin]) ∧
    (∀ r ∈ extractSchedule c10Inp [c10Pin] c10Sol,
      r.teacher_code = "T1" → r.day = "Mon" → r.break_id = "b1" →
      r.is_pinned = true ∧ r.is_manual = true) :=
  c10_pin_whitelist c10Inp [c10Pin] c10Sol c10Pin c10Teacher "T1" "Mon" 4 "b1"
    (by decide) rfl rfl rfl (by decide) (by decide) (by decide) (by decide)
    (by decide) rfl (by decide)

/-- Lexicographic character-list comparison (used only to state the claimed
result ordering). -/
def charsLE : List Char → List Char → Bool
  | [], _ => true
  | _ :: _, [] => false
  | c :: cs, d :: ds => c < d || (c == d && charsLE cs ds)

/-- The ordering key from claim C8: day position in Mon..Fri, then
after_lesson, then zone id. -/
def recKeyLE (r1 r2 : AssignmentRec) : Bool :=
  let d1 := days.indexOf r1.day
  let d2 := days.indexOf r2.day
  d1 < d2 || (d1 == d2 && (r1.break_index < r2.break_index ||
    (r1.break_index == r2.break_index && charsLE r1.zone_id.toList r2.zone_id.toList)))

/-- Is a result list sorted by (day, after_lesson, zone_id)? -/
def sortedByDayIdxZone : List AssignmentRec → Bool
  | [] => true
  | [_] => true
  | r1 :: r2 :: rs => recKeyLE r1 r2 && sortedByDayIdxZone (r2 :: rs)

/-- Concrete instance for claim C8: the breaks appear in the config in
decreasing `afterLesson` order. -/
def c8Inp : SolverInput :=
  { teachers := [{ teacher_code := "T1",
                   schedule_json := [{ day := "Mon", lesson_index := 4 },
                                     { day := "Mon", lesson_index := 5 },
                                     { day := "Mon", lesson_index := 6 }] }],
    zones := [⟨"z1", "Z"⟩],
    breaks := [{ id := "b1", name := "P5", afterLesson := 5 },
               { id := "b2", name := "P4", afterLesson := 4 }],
    reqs := [("z1", [("b1", 1), ("b2", 1)])] }

def c8Sol : Quad → Bool := fun q =>
  q == ("T1", "Mon", "b1", "z1") || q == ("T1", "Mon", "b2", "z1")

/-- Counterexample to claim C8: in this feasible solve the returned list is
in variable-insertion order (break input order), which is NOT sorted by
(day, after_lesson, zone_id): the `after_lesson = 5` record precedes the
`after_lesson = 4` record. -/
theorem c8_counterexample :
    feasible c8Inp [] c8Sol = true ∧
    ((extractSchedule c8Inp [] c8Sol).map fun r => (r.day, r.break_index, r.zone_id)) =
      [("Mon", 5, "z1"), ("Mon", 4, "z1")] ∧
    sortedByDayIdxZone (extractSchedule c8Inp [] c8Sol) = false := by
  refine ⟨by decide, by decide, by decide⟩

/-- Claim C8 amended: result construction is a pure function of the model's
variable values: two backend solutions that agree on every created variable
yield identical result lists (the list itself follows variable-creation
order: teacher input order, then Mon..Fri, then break and zone input
order). -/
theorem c8_extraction_deterministic (inp : SolverInput) (pins : List Pin)
    (sol sol2 : Quad → Bool)
    (h : ∀ q ∈ createdVars inp pins, sol q = sol2 q) :
    extractSchedule inp pins sol = extractSchedule inp pins sol2 := by
  unfold extractSchedule
  congr 1
  exact List.filter_congr fun q hq => h q (firstDedup_subset hq)

/-- Witness for C8's amended statement. -/
theorem c8_extraction_deterministic_witness :
    extractSchedule c8Inp [] c8Sol = extractSchedule c8Inp []
      (fun q => decide (q ∈ [("T1", "Mon", "b1", "z1"), ("T1", "Mon", "b2", "z1")])) :=
  c8_extraction_deterministic c8Inp [] _ _ (by decide)


/-- The neighbor candidate scores as the source computes them: one entry per
neighbor-list element containing the room, scored by the FIRST occurrence
(`.index`) of that key. -/
def neighborCandsCode (topology : List (String × List String))
    (allowed : List String) (room : String) : List Int :=
  allowed.filterMap fun n =>
    if room ∈ roomsOf topology n then some (80 - 15 * (allowed.indexOf n : Int))
    else none

theorem foldl_step_eq_foldl_max (topology : List (String × List String))
    (allowed : List String) (room : String) :
    ∀ (l : List String) (m : Int),
      l.foldl (fun acc n =>
        if room ∈ roomsOf topology n then
          max acc (80 - 15 * (allowed.indexOf n : Int))
        else acc) m =
      (l.filterMap fun n =>
        if room ∈ roomsOf topology n then some (80 - 15 * (allowed.indexOf n : Int))
        else none).foldl max m
  | [], _ => rfl
  | n :: l, m => by
      by_cases h : room ∈ roomsOf topology n
      · rw [List.foldl_cons, if_pos h,
          List.filterMap_cons_some (by rw [if_pos h]), List.foldl_cons]
        exact foldl_step_eq_foldl_max topology allowed room l _
      · rw [List.foldl_cons, if_neg h,
          List.filterMap_cons_none (by rw [if_neg h])]
        exact foldl_step_eq_foldl_max topology allowed room l m

theorem neighborFold_eq (topology : List (String × List String))
    (allowed : List String) (room : String) (m : Int) :
    neighborFold topology allowed room m =
    (neighborCandsCode topology allowed room).foldl max m :=
  foldl_step_eq_foldl_max topology allowed room allowed m

theorem le_foldl_max (l : List Int) (m : Int) : m ≤ l.foldl max m := by
  induction l generalizing m with
  | nil => simp
  | cons a l ih =>
      rw [List.foldl_cons]
      exact le_trans (le_max_left m a) (ih (max m a))

theorem mem_le_foldl_max {l : List Int} {x : Int} (hx : x ∈ l) (m : Int) :
    x ≤ l.foldl max m := by
  induction l generalizing m with
  | nil => cases hx
  | cons a l ih =>
      rw [List.foldl_cons]
      rcases List.mem_cons.mp hx with rfl | h
      · exact le_trans (le_max_right m x) (le_foldl_max l (max m x))
      · exact ih h (max m a)

theorem foldl_max_le {l : List Int} {m k : Int} (hm : m ≤ k) (hl : ∀ x ∈ l, x ≤ k) :
    l.foldl max m ≤ k := by
  induction l generalizing m with
  | nil => simpa
  | cons a l ih =>
      rw [List.foldl_cons]
      exact ih (max_le hm (hl a (List.mem_cons_self _ _)))
        fun x hx => hl x (List.mem_cons_of_mem _ hx)

theorem indexOf_le_of_getElem? {l : List String} {i : ℕ} {a : String}
    (h : l[i]? = some a) : l.indexOf a ≤ i := by
  induction l generalizing i with
  | nil => simp at h
  | cons b l ih =>
      cases i with
      | zero =>
          simp only [List.getElem?_cons_zero, Option.some.injEq] at h
          subst h
          simp
      | succ i =>
          rw [List.getElem?_cons_succ] at h
          by_cases hba : b = a
          · subst hba
            simp
          · rw [List.indexOf_cons_ne _ hba]
            exact Nat.succ_le_succ (ih h)

theorem foldl_max_code_eq_claim (topology : List (String × List String))
    (allowed : List String) (room : String) (m : Int) :
    (neighborCandsCode topology allowed room).foldl max m =
    (claimNeighborCands topology allowed room).foldl max m := by
  apply le_antisymm
  · refine foldl_max_le (le_foldl_max _ m) ?_
    intro x hx
    refine mem_le_foldl_max ?_ m
    rcases List.mem_filterMap.mp hx with ⟨n, hn, hfn⟩
    by_cases h : room ∈ roomsOf topology n
    · rw [if_pos h] at hfn
      injection hfn with hfn
      subst hfn
      refine List.mem_filterMap.mpr ⟨(allowed.indexOf n, n), ?_, by rw [if_pos h]⟩
      rw [List.mk_mem_enum_iff_getElem?,
        List.getElem?_eq_getElem (List.indexOf_lt_length.mpr hn),
        List.getElem_indexOf]
    · rw [if_neg h] at hfn
      cases hfn
  · refine foldl_max_le (le_foldl_max _ m) ?_
    intro y hy
    rcases List.mem_filterMap.mp hy with ⟨⟨i, n⟩, hin, hfn⟩
    by_cases h : room ∈ roomsOf topology n
    · rw [if_pos h] at hfn
      injection hfn with hfn
      subst hfn
      have hget : allowed[i]? = some n := List.mk_mem_enum_iff_getElem?.mp hin
      have hn : n ∈ allowed := List.getElem?_mem hget
      have hidx : allowed.indexOf n ≤ i := indexOf_le_of_getElem? hget
      have hx : (80 - 15 * (allowed.indexOf n : Int)) ∈
          neighborCandsCode topology allowed room :=
        List.mem_filterMap.mpr ⟨n, hn, by rw [if_pos h]⟩
      have hcast : (allowed.indexOf n : Int) ≤ (i : Int) := by exact_mod_cast hidx
      exact le_trans (by omega) (mem_le_foldl_max hx m)
    · rw [if_neg h] at hfn
      cases hfn

theorem scanRooms_eq (perfect : List String) (topology : List (String × List String))
    (allowed : List String) :
    ∀ (rooms : List String) (m : Int),
      scanRooms perfect topology allowed rooms m =
      if rooms.any (fun r => decide (r ∈ perfect)) then 100
      else rooms.foldl (fun acc r => neighborFold topology allowed r acc) m
  | [], m => by simp [scanRooms]
  | r :: rs, m => by
      by_cases h : r ∈ perfect
      · simp [scanRooms, h]
      · rw [scanRooms, if_neg h, scanRooms_eq perfect topology allowed rs _]
        simp [h]

theorem foldl_foldl_eq_flatMap {α : Type} (f : α → List Int) :
    ∀ (l : List α) (m : Int),
      l.foldl (fun acc a => (f a).foldl max acc) m = (l.flatMap f).foldl max m
  | [], _ => rfl
  | a :: l, m => by
      rw [List.foldl_cons, List.flatMap_cons, List.foldl_append]
      exact foldl_foldl_eq_flatMap f l _

/-- Concrete instance for claim C5: the room matches only the sixth
neighbor (0-indexed position 5), whose candidate score 80 - 15*5 = 5 lies
below the floor of 10. -/
def c5Inp : SolverInput :=
  { teachers := [],
    zones := [⟨"z1", "Boisko"⟩],
    breaks := [],
    topology := [("S1", []), ("N5", ["10"])],
    proximity := [("S1", ["N0", "N1", "N2", "N3", "N4", "N5"])] }

def c5T : Teacher :=
  { teacher_code := "T1",
    schedule_json := [{ day := "Mon", lesson_index := 4, room_code := "10" }] }

def c5B : BreakInfo := { id := "b1", name := "P1", afterLesson := 4 }

/-- Counterexample to claim C5: with the only match at neighbor position 5,
the source returns the floor 10 (`max_score` starts at 10), while the
claim's step 5 (maximum candidate, or 10 only when nothing matched) yields
80 - 15*5 = 5. -/
theorem c5_counterexample :
    getLocationWeight c5Inp c5T "Mon" c5B "z1" = 10 ∧
    locWeightClaim c5Inp c5T "Mon" c5B "z1" = 5 := by
  refine ⟨by decide, by decide⟩

/-- Claim C5 amended: the location score follows the claimed algorithm with
one change: the final step returns the maximum of 10 AND all neighbor
candidates 80 - 15*i (so it never drops below 10), rather than 10 only when
no room matched a neighbor. -/
theorem c5_location_weight (inp : SolverInput) (t : Teacher) (day : String)
    (b : BreakInfo) (zone_id : String) :
    getLocationWeight inp t day b zone_id = locWeightAmended inp t day b zone_id := by
  unfold getLocationWeight locWeightAmended
  by_cases hpref : zone_id ∈ t.preferred_zones
  · rw [if_pos hpref, if_pos hpref]
  · rw [if_neg hpref, if_neg hpref]
    cases htopo : topologyKeyOf
        (pyUpper (((inp.zones.find? fun z => z.id == zone_id).map Zone.name).getD "")) with
    | none => simp [htopo]
    | some key =>
        simp only [htopo]
        by_cases hempty : (currentRoomsOf t day b).isEmpty
        · rw [if_pos hempty, if_pos hempty]
        · rw [if_neg hempty, if_neg hempty,
            scanRooms_eq (roomsOf inp.topology key) inp.topology
              ((inp.proximity.lookup key).getD []) (currentRoomsOf t day b) 10]
          by_cases hany : (currentRoomsOf t day b).any
              fun r => decide (r ∈ roomsOf inp.topology key)
          · rw [if_pos hany, if_pos hany]
          · rw [if_neg hany, if_neg hany]
            simp only [neighborFold_eq, foldl_max_code_eq_claim]
            exact foldl_foldl_eq_flatMap _ (currentRoomsOf t day b) 10


theorem mem_cellVars {inp : SolverInput} {pins : List Pin} {t : Teacher}
    {d : String} {b : BreakInfo} {q : Quad} :
    q ∈ cellVars inp pins t d b ↔
      eligibleCell inp pins t d b = true ∧
        ∃ z ∈ inp.zones, q = (t.teacher_code, d, b.id, z.id) := by
  unfold cellVars
  by_cases h : eligibleCell inp pins t d b
  · rw [if_pos h]
    simp only [List.mem_map, h, true_and]
    constructor
    · rintro ⟨z, hz, rfl⟩
      exact ⟨z, hz, rfl⟩
    · rintro ⟨z, hz, rfl⟩
      exact ⟨z, hz, rfl⟩
  · rw [if_neg h]
    simp [h]

theorem cellVars_comp {inp : SolverInput} {pins : List Pin} {t : Teacher}
    {d : String} {b : BreakInfo} {q : Quad} (hq : q ∈ cellVars inp pins t d b) :
    q.1 = t.teacher_code ∧ q.2.1 = d ∧ q.2.2.1 = b.id := by
  rcases mem_cellVars.mp hq with ⟨_, z, _, rfl⟩
  exact ⟨rfl, rfl, rfl⟩

theorem dayVars_comp {inp : SolverInput} {pins : List Pin} {t : Teacher}
    {d : String} {q : Quad} (hq : q ∈ dayVars inp pins t d) :
    q.1 = t.teacher_code ∧ q.2.1 = d := by
  rcases List.mem_flatMap.mp hq with ⟨b, _, hq'⟩
  exact ⟨(cellVars_comp hq').1, (cellVars_comp hq').2.1⟩

theorem teacherVars_comp {inp : SolverInput} {pins : List Pin} {t : Teacher}
    {q : Quad} (hq : q ∈ teacherVars inp pins t) : q.1 = t.teacher_code := by
  rcases List.mem_flatMap.mp hq with ⟨d, _, hq'⟩
  exact (dayVars_comp hq').1

theorem createdVars_nodup {inp : SolverInput} {pins : List Pin}
    (hwf : WFInput inp) : (createdVars inp pins).Nodup := by
  obtain ⟨hT, hB, hZ⟩ := hwf
  unfold createdVars
  rw [List.nodup_flatMap]
  refine ⟨fun t _ => ?_, ?_⟩
  · unfold teacherVars
    rw [List.nodup_flatMap]
    refine ⟨fun d _ => ?_, ?_⟩
    · unfold dayVars
      rw [List.nodup_flatMap]
      refine ⟨fun b _ => ?_, ?_⟩
      · unfold cellVars
        by_cases h : eligibleCell inp pins t d b
        · rw [if_pos h,
            show (inp.zones.map fun z => (t.teacher_code, d, b.id, z.id)) =
              (inp.zones.map Zone.id).map (fun zid => (t.teacher_code, d, b.id, zid))
            from by rw [List.map_map]; rfl]
          exact hZ.map fun z1 z2 h12 => by simpa using h12
        · rw [if_neg h]
          exact List.nodup_nil
      · have hpair : inp.breaks.Pairwise fun b1 b2 => b1.id ≠ b2.id :=
          List.pairwise_map.mp hB
        refine hpair.imp ?_
        intro b1 b2 hne q hq1 hq2
        exact hne ((cellVars_comp hq1).2.2.symm.trans (cellVars_comp hq2).2.2)
    · have hpair : days.Pairwise fun d1 d2 => d1 ≠ d2 := by decide
      refine hpair.imp ?_
      intro d1 d2 hne q hq1 hq2
      exact hne ((dayVars_comp hq1).2.symm.trans (dayVars_comp hq2).2)
  · have hpair : inp.teachers.Pairwise fun t1 t2 => t1.teacher_code ≠ t2.teacher_code :=
      List.pairwise_map.mp hT
    refine hpair.imp ?_
    intro t1 t2 hne q hq1 hq2
    exact hne ((teacherVars_comp hq1).symm.trans (teacherVars_comp hq2))

theorem mem_createdVars_iff {inp : SolverInput} {pins : List Pin}
    (hwf : WFInput inp) {t : Teacher} {d : String} {b : BreakInfo} {z : Zone}
    (ht : t ∈ inp.teachers) (hd : d ∈ days) (hb : b ∈ inp.breaks)
    (hz : z ∈ inp.zones) :
    ((t.teacher_code, d, b.id, z.id) ∈ createdVars inp pins) ↔
      eligibleCell inp pins t d b = true := by
  obtain ⟨hT, hB, _⟩ := hwf
  constructor
  · intro hmem
    rcases List.mem_flatMap.mp hmem with ⟨t', ht', hq1⟩
    rcases List.mem_flatMap.mp hq1 with ⟨d', _, hq2⟩
    rcases List.mem_flatMap.mp hq2 with ⟨b', hb', hq3⟩
    rcases mem_cellVars.mp hq3 with ⟨helig, z', _, heq⟩
    obtain ⟨e1, e2, e3, _⟩ : t.teacher_code = t'.teacher_code ∧ d = d' ∧
        b.id = b'.id ∧ z.id = z'.id := by
      simpa [Prod.ext_iff] using heq
    have ht'' : t' = t := List.inj_on_of_nodup_map hT ht' ht e1.symm
    have hb'' : b' = b := List.inj_on_of_nodup_map hB hb' hb e3.symm
    rw [ht'', hb''] at helig
    rw [← e2] at helig
    exact helig
  · intro helig
    refine List.mem_flatMap.mpr ⟨t, ht, ?_⟩
    refine List.mem_flatMap.mpr ⟨d, hd, ?_⟩
    refine List.mem_flatMap.mpr ⟨b, hb, ?_⟩
    exact mem_cellVars.mpr ⟨helig, z, hz, rfl⟩

/-- With unique teacher codes, the filter used by the `teacher_targets`
dict lookup reduces to the teacher itself. -/
theorem filter_code_eq_single :
    ∀ (l : List Teacher), (l.map Teacher.teacher_code).Nodup →
      ∀ t ∈ l, (l.filter fun t' => t'.teacher_code == t.teacher_code) = [t]
  | [], _, t, ht => by cases ht
  | a :: l, hnd, t, ht => by
      rw [List.map_cons, List.nodup_cons] at hnd
      rcases List.mem_cons.mp ht with rfl | h
      · rw [List.filter_cons_of_pos (by simp),
          List.filter_eq_nil_iff.mpr fun t' ht' hcontra =>
            hnd.1 (List.mem_map.mpr ⟨t', ht', by simpa using hcontra⟩)]
      · have hneg : ¬ (a.teacher_code == t.teacher_code) = true := by
          simp only [beq_iff_eq]
          intro hcontra
          exact hnd.1 (List.mem_map.mpr ⟨t, h, hcontra.symm⟩)
        rw [List.filter_cons, if_neg hneg]
        exact filter_code_eq_single l hnd.2 t h

theorem targetOfCode_eq {inp : SolverInput} (hwf : WFInput inp) {t : Teacher}
    (ht : t ∈ inp.teachers) : targetOfCode inp t.teacher_code = teacherTarget inp t := by
  unfold targetOfCode
  rw [filter_code_eq_single inp.teachers hwf.1 t ht]
  rfl


/-- Number of returned assignments to one `(day, break, zone)` slot. -/
def slotAssignedCount (inp : SolverInput) (pins : List Pin) (sol : Quad → Bool)
    (d : String) (b : BreakInfo) (z : Zone) : Nat :=
  ((extractSchedule inp pins sol).filter fun r =>
    r.day == d && r.break_id == b.id && r.zone_id == z.id).length

/-- Number of returned assignments of one teacher
(`actual_duties_calculated`). -/
def teacherAssignedCount (inp : SolverInput) (pins : List Pin) (sol : Quad → Bool)
    (tc : String) : Nat :=
  ((extractSchedule inp pins sol).filter fun r => r.teacher_code == tc).length

/-- The `break_index` value a record gets for a break id (afterLesson of the
first break with that id, 999 if none). -/
def brIdxOf (inp : SolverInput) (bid : String) : Int :=
  match inp.breaks.find? fun b => b.id == bid with
  | some b => b.afterLesson
  | none => 999

/-- Number of returned assignments of one teacher on one day whose break
belongs to the `afterLesson = idxVal` concurrency group. -/
def groupAssignedCount (inp : SolverInput) (pins : List Pin) (sol : Quad → Bool)
    (tc d : String) (idxVal : Int) : Nat :=
  ((extractSchedule inp pins sol).filter fun r =>
    r.teacher_code == tc && r.day == d && r.break_index == idxVal).length

theorem mkRecord_break_index (inp : SolverInput) (pins : List Pin) (q : Quad) :
    (mkRecord inp pins q).break_index = brIdxOf inp q.2.2.1 := rfl

theorem extract_count_eq (inp : SolverInput) (pins : List Pin) (sol : Quad → Bool)
    (hwf : WFInput inp) (φ : AssignmentRec → Bool) :
    ((extractSchedule inp pins sol).filter φ).length =
    (createdVars inp pins).countP fun q => φ (mkRecord inp pins q) && sol q := by
  unfold extractSchedule
  rw [firstDedup_eq_self (createdVars_nodup hwf), ← List.countP_eq_length_filter,
    List.countP_map, List.countP_filter]
  rfl

theorem find?_break_id {inp : SolverInput}
    (hB : (inp.breaks.map BreakInfo.id).Nodup) {b : BreakInfo}
    (hb : b ∈ inp.breaks) :
    (inp.breaks.find? fun b' => b'.id == b.id) = some b := by
  cases hf : inp.breaks.find? fun b' => b'.id == b.id with
  | none =>
      have hcontra := List.find?_eq_none.mp hf b hb
      simp at hcontra
  | some b' =>
      have hmem := List.mem_of_find?_eq_some hf
      have hpred : b'.id = b.id := by simpa using List.find?_some hf
      rw [List.inj_on_of_nodup_map hB hmem hb hpred]

theorem brIdxOf_eq {inp : SolverInput} (hB : (inp.breaks.map BreakInfo.id).Nodup)
    {b : BreakInfo} (hb : b ∈ inp.breaks) : brIdxOf inp b.id = b.afterLesson := by
  unfold brIdxOf
  rw [find?_break_id hB hb]

theorem countP_teacherVars_day {inp : SolverInput} {pins : List Pin} {t : Teacher}
    (p : Quad → Bool) {d : String} (hd : d ∈ days)
    (hvan : ∀ q : Quad, q.2.1 ≠ d → p q = false) :
    (teacherVars inp pins t).countP p = (dayVars inp pins t d).countP p := by
  unfold teacherVars
  rw [countP_flatMap, sum_map_eq_single days _ d (by decide) hd]
  intro d' _ hne
  apply List.countP_eq_zero.mpr
  intro q hq
  rw [hvan q (by rw [(dayVars_comp hq).2]; exact hne)]
  simp

theorem countP_dayVars_break {inp : SolverInput} {pins : List Pin} {t : Teacher}
    {d : String} (p : Quad → Bool)
    (hB : (inp.breaks.map BreakInfo.id).Nodup) {b : BreakInfo} (hb : b ∈ inp.breaks)
    (hvan : ∀ q : Quad, q.2.2.1 ≠ b.id → p q = false) :
    (dayVars inp pins t d).countP p = (cellVars inp pins t d b).countP p := by
  unfold dayVars
  rw [countP_flatMap, sum_map_eq_single inp.breaks _ b (hB.of_map) hb]
  intro b' hb' hne
  apply List.countP_eq_zero.mpr
  intro q hq
  have hid : b'.id ≠ b.id := fun h => hne (List.inj_on_of_nodup_map hB hb' hb h)
  rw [hvan q (by rw [(cellVars_comp hq).2.2]; exact hid)]
  simp

theorem countP_createdVars_teacher {inp : SolverInput} {pins : List Pin}
    (p : Quad → Bool) {t : Teacher}
    (hT : (inp.teachers.map Teacher.teacher_code).Nodup) (ht : t ∈ inp.teachers)
    (hvan : ∀ q : Quad, q.1 ≠ t.teacher_code → p q = false) :
    (createdVars inp pins).countP p = (teacherVars inp pins t).countP p := by
  unfold createdVars
  rw [countP_flatMap, sum_map_eq_single inp.teachers _ t (hT.of_map) ht]
  intro t' ht' hne
  apply List.countP_eq_zero.mpr
  intro q hq
  have hcode : t'.teacher_code ≠ t.teacher_code :=
    fun h => hne (List.inj_on_of_nodup_map hT ht' ht h)
  rw [hvan q (by rw [teacherVars_comp hq]; exact hcode)]
  simp

theorem countP_createdVars_zero {inp : SolverInput} {pins : List Pin}
    (p : Quad → Bool) {tc : String}
    (hno : ∀ t ∈ inp.teachers, t.teacher_code ≠ tc)
    (hvan : ∀ q : Quad, q.1 ≠ tc → p q = false) :
    (createdVars inp pins).countP p = 0 := by
  apply List.countP_eq_zero.mpr
  intro q hq
  rcases List.mem_flatMap.mp hq with ⟨t', ht', hq'⟩
  rw [hvan q (by rw [teacherVars_comp hq']; exact hno t' ht')]
  simp

theorem countP_cellVars (inp : SolverInput) (pins : List Pin) (t : Teacher)
    (d : String) (b : BreakInfo) (p : Quad → Bool) :
    (cellVars inp pins t d b).countP p =
    if eligibleCell inp pins t d b then
      inp.zones.countP fun z => p (t.teacher_code, d, b.id, z.id)
    else 0 := by
  unfold cellVars
  by_cases h : eligibleCell inp pins t d b
  · rw [if_pos h, if_pos h, List.countP_map]
    rfl
  · rw [if_neg h, if_neg h]
    rfl

theorem countP_zones_single {inp : SolverInput}
    (hZ : (inp.zones.map Zone.id).Nodup) {z : Zone} (hz : z ∈ inp.zones)
    (p : Zone → Bool)
    (hvan : ∀ z' ∈ inp.zones, z'.id ≠ z.id → p z' = false) :
    inp.zones.countP p = if p z then 1 else 0 := by
  rw [← sum_map_ite_eq_countP, sum_map_eq_single inp.zones _ z (hZ.of_map) hz]
  intro z' hz' hne
  rw [hvan z' hz' fun h => hne (List.inj_on_of_nodup_map hZ hz' hz h)]
  simp

theorem flatMap_congr {α β : Type} {l : List α} {f g : α → List β}
    (h : ∀ a ∈ l, f a = g a) : l.flatMap f = l.flatMap g := by
  induction l with
  | nil => rfl
  | cons a l ih =>
      rw [List.flatMap_cons, List.flatMap_cons, h a (List.mem_cons_self _ _),
        ih fun a' ha' => h a' (List.mem_cons_of_mem _ ha')]

/-- Under the input invariants, the `all_shifts` list of one teacher is
exactly the variable block created for that teacher. -/
theorem allShiftsFor_eq {inp : SolverInput} {pins : List Pin} (hwf : WFInput inp)
    {t : Teacher} (ht : t ∈ inp.teachers) :
    allShiftsFor inp pins t.teacher_code = teacherVars inp pins t := by
  unfold allShiftsFor teacherVars
  rw [List.filter_flatMap]
  apply flatMap_congr
  intro d hd
  unfold dayVars
  rw [List.filter_flatMap]
  apply flatMap_congr
  intro b hb
  by_cases h : eligibleCell inp pins t d b
  · rw [List.filter_eq_self.mpr, cellVars, if_pos h]
    intro q hq
    rcases List.mem_map.mp hq with ⟨z, hz, rfl⟩
    simpa using (mem_createdVars_iff hwf ht hd hb hz).mpr h
  · rw [List.filter_eq_nil_iff.mpr, cellVars, if_neg h]
    intro q hq
    rcases List.mem_map.mp hq with ⟨z, hz, rfl⟩
    simp only [decide_eq_true_eq]
    exact fun hmem => h ((mem_createdVars_iff hwf ht hd hb hz).mp hmem)


/-- Bridge for C1: the number of returned assignments at a slot equals the
model's `sum(potential)` for that slot. -/
theorem slotAssignedCount_eq {inp : SolverInput} {pins : List Pin}
    {sol : Quad → Bool} (hwf : WFInput inp) {d : String} {b : BreakInfo}
    {z : Zone} (hd : d ∈ days) (hb : b ∈ inp.breaks) (hz : z ∈ inp.zones) :
    slotAssignedCount inp pins sol d b z = slotSum inp pins sol d b z := by
  unfold slotAssignedCount
  rw [extract_count_eq inp pins sol hwf]
  show (createdVars inp pins).countP
      (fun q => (q.2.1 == d && q.2.2.1 == b.id && q.2.2.2 == z.id) && sol q) = _
  unfold createdVars
  rw [countP_flatMap]
  have hper : ∀ t ∈ inp.teachers,
      (teacherVars inp pins t).countP
        (fun q => (q.2.1 == d && q.2.2.1 == b.id && q.2.2.2 == z.id) && sol q) =
      (if eligibleCell inp pins t d b && sol (t.teacher_code, d, b.id, z.id)
       then 1 else 0) := by
    intro t _
    rw [countP_teacherVars_day _ hd (fun q hne => by
      have hbe : (q.2.1 == d) = false := by simpa using hne
      simp [hbe])]
    rw [countP_dayVars_break _ hwf.2.1 hb (fun q hne => by
      have hbe : (q.2.2.1 == b.id) = false := by simpa using hne
      simp [hbe])]
    rw [countP_cellVars]
    by_cases helig : eligibleCell inp pins t d b
    · rw [if_pos helig]
      rw [countP_zones_single hwf.2.2 hz _ (fun z' _ hne => by
        have hbe : (z'.id == z.id) = false := by simpa using hne
        simp [hbe])]
      simp [helig]
    · rw [if_neg helig]
      simp [helig]
  rw [List.map_congr_left hper, sum_map_ite_eq_countP]
  unfold slotSum potentialTeachers
  rw [List.filter_filter, ← List.countP_eq_length_filter]
  apply List.countP_congr
  intro t ht
  have hm : decide ((t.teacher_code, d, b.id, z.id) ∈ createdVars inp pins) =
      eligibleCell inp pins t d b := by
    by_cases h : eligibleCell inp pins t d b
    · simp [h, (mem_createdVars_iff hwf ht hd hb hz).mpr h]
    · have hnm : (t.teacher_code, d, b.id, z.id) ∉ createdVars inp pins :=
        fun hmem => h ((mem_createdVars_iff hwf ht hd hb hz).mp hmem)
      rw [decide_eq_false hnm, eq_comm, ← Bool.not_eq_true]
      exact h
  rw [hm, Bool.and_comm]

/-- Claim C1 amended: with required count r and n eligible variables at a
slot, a successful solve returns 0 assignments when r = 0, exactly r when
0 < r ≤ n, and AT MOST n when 0 < n < r (best effort: the undersupplied
constraint is only `sum ≤ n`, so a feasible solution may assign fewer than
n). -/
theorem c1_coverage (inp : SolverInput) (pins : List Pin) (sol : Quad → Bool)
    (hwf : WFInput inp) (hf : feasible inp pins sol = true)
    (d : String) (b : BreakInfo) (z : Zone)
    (hd : d ∈ days) (hb : b ∈ inp.breaks) (hz : z ∈ inp.zones) :
    (reqFor inp z.id b.id = 0 → slotAssignedCount inp pins sol d b z = 0) ∧
    (0 < reqFor inp z.id b.id →
      (reqFor inp z.id b.id ≤ ((potentialTeachers inp pins d b z).length : Int) →
        (slotAssignedCount inp pins sol d b z : Int) = reqFor inp z.id b.id) ∧
      (((potentialTeachers inp pins d b z).length : Int) < reqFor inp z.id b.id →
        slotAssignedCount inp pins sol d b z ≤
          (potentialTeachers inp pins d b z).length)) := by
  have hcov : coverageOK inp pins sol = true := by
    unfold feasible at hf
    simp only [Bool.and_eq_true] at hf
    exact hf.1.1.1.1.1.1
  unfold coverageOK at hcov
  rw [List.all_eq_true] at hcov
  have h1 := hcov d hd
  rw [List.all_eq_true] at h1
  have h2 := h1 b hb
  rw [List.all_eq_true] at h2
  have hslot := h2 z hz
  simp only [] at hslot
  rw [slotAssignedCount_eq hwf hd hb hz]
  have hle : slotSum inp pins sol d b z ≤ (potentialTeachers inp pins d b z).length := by
    unfold slotSum
    exact List.length_filter_le _ _
  constructor
  · intro hr0
    rw [if_pos (by simp [hr0])] at hslot
    rcases Bool.or_eq_true_iff.mp hslot with hn0 | hs0
    · have : (potentialTeachers inp pins d b z).length = 0 := by simpa using hn0
      omega
    · simpa using hs0
  · intro hrpos
    have hrne : (reqFor inp z.id b.id == 0) = false := by
      rw [beq_eq_false_iff_ne]
      omega
    rw [if_neg (by simp [hrne])] at hslot
    constructor
    · intro hrn
      rw [if_neg (by omega)] at hslot
      simpa using hslot
    · intro hnr
      rw [if_pos hnr] at hslot
      simpa using hslot

/-- Shared concrete instance: one teacher, one zone, one break, requirement
1, the teacher present around the break on Monday only. -/
def exTeacher : Teacher :=
  { teacher_code := "T1",
    schedule_json := [{ day := "Mon", lesson_index := 4 },
                      { day := "Mon", lesson_index := 5 }] }

def exInp : SolverInput :=
  { teachers := [exTeacher],
    zones := [⟨"z1", "Z"⟩],
    breaks := [{ id := "b1", name := "P1", afterLesson := 4 }],
    reqs := [("z1", [("b1", 1)])] }

def exBreak : BreakInfo := { id := "b1", name := "P1", afterLesson := 4 }

def exZone : Zone := ⟨"z1", "Z"⟩

def exSol : Quad → Bool := fun q => q == ("T1", "Mon", "b1", "z1")

/-- Witness for C1 on the concrete instance. -/
theorem c1_coverage_witness :
    (reqFor exInp "z1" "b1" = 0 → slotAssignedCount exInp [] exSol "Mon" exBreak exZone = 0) ∧
    (0 < reqFor exInp "z1" "b1" →
      (reqFor exInp "z1" "b1" ≤ ((potentialTeachers exInp [] "Mon" exBreak exZone).length : Int) →
        (slotAssignedCount exInp [] exSol "Mon" exBreak exZone : Int) = reqFor exInp "z1" "b1") ∧
      (((potentialTeachers exInp [] "Mon" exBreak exZone).length : Int) < reqFor exInp "z1" "b1" →
        slotAssignedCount exInp [] exSol "Mon" exBreak exZone ≤
          (potentialTeachers exInp [] "Mon" exBreak exZone).length)) :=
  c1_coverage exInp [] exSol (by decide) (by decide) "Mon" exBreak exZone
    (by decide) (by decide) (by decide)


/-- Bridge for C3: the per-teacher count of returned assignments equals the
model's `total_assigned` for that teacher. -/
theorem teacherAssignedCount_eq {inp : SolverInput} {pins : List Pin}
    {sol : Quad → Bool} (hwf : WFInput inp) {t : Teacher} (ht : t ∈ inp.teachers) :
    teacherAssignedCount inp pins sol t.teacher_code =
      totalFor inp pins sol t.teacher_code := by
  unfold teacherAssignedCount
  rw [extract_count_eq inp pins sol hwf]
  show (createdVars inp pins).countP (fun q => q.1 == t.teacher_code && sol q) = _
  rw [countP_createdVars_teacher _ hwf.1 ht (fun q hne => by
    have hbe : (q.1 == t.teacher_code) = false := by simpa using hne
    simp [hbe])]
  have hcong : (teacherVars inp pins t).countP
      (fun q => q.1 == t.teacher_code && sol q) =
      (teacherVars inp pins t).countP sol := by
    apply List.countP_congr
    intro q hq
    simp [teacherVars_comp hq]
  rw [hcong]
  unfold totalFor
  rw [allShiftsFor_eq hwf ht, List.countP_eq_length_filter]

/-- Claim C3 (fairness bound): for every teacher with at least one eligible
variable, every successful solve keeps the teacher's returned duty count
within `max_fairness_deviation` of the pro-rata target
`round(teaching_hours / total_teaching_hours * total_required_slots)`
(Python `round`, i.e. half-to-even). -/
theorem c3_fairness (inp : SolverInput) (pins : List Pin) (sol : Quad → Bool)
    (hwf : WFInput inp) (hf : feasible inp pins sol = true)
    (t : Teacher) (ht : t ∈ inp.teachers)
    (hne : allShiftsFor inp pins t.teacher_code ≠ []) :
    (((teacherAssignedCount inp pins sol t.teacher_code : Int) -
        teacherTarget inp t).natAbs : Int) ≤ inp.rules.max_fairness_deviation := by
  have hfair : fairnessOK inp pins sol = true := by
    unfold feasible at hf
    simp only [Bool.and_eq_true] at hf
    exact hf.1.2
  unfold fairnessOK at hfair
  rw [List.all_eq_true] at hfair
  have h := hfair t ht
  have hemp : (allShiftsFor inp pins t.teacher_code).isEmpty = false := by
    cases hl : (allShiftsFor inp pins t.teacher_code).isEmpty
    · rfl
    · exact absurd (List.isEmpty_iff.mp hl) hne
  rw [hemp] at h
  simp only [Bool.false_or, Bool.and_eq_true, decide_eq_true_eq] at h
  rw [teacherAssignedCount_eq hwf ht, ← targetOfCode_eq hwf ht]
  exact h.2

/-- Witness for C3 on the concrete instance. -/
theorem c3_fairness_witness :
    (((teacherAssignedCount exInp [] exSol exTeacher.teacher_code : Int) -
        teacherTarget exInp exTeacher).natAbs : Int) ≤
      exInp.rules.max_fairness_deviation :=
  c3_fairness exInp [] exSol (by decide) (by decide) exTeacher (by decide) (by decide)


/-- Claim C2 (concurrency): in every successful solve, a teacher holds at
most one assignment per day within each group of breaks sharing one
`afterLesson` value, across all zones. -/
theorem c2_concurrency (inp : SolverInput) (pins : List Pin) (sol : Quad → Bool)
    (hwf : WFInput inp) (hf : feasible inp pins sol = true)
    (tc d : String) (idxVal : Int) :
    groupAssignedCount inp pins sol tc d idxVal ≤ 1 := by
  have hstart : groupAssignedCount inp pins sol tc d idxVal =
      (createdVars inp pins).countP
        (fun q => (q.1 == tc && q.2.1 == d && brIdxOf inp q.2.2.1 == idxVal) && sol q) := by
    unfold groupAssignedCount
    rw [extract_count_eq inp pins sol hwf]
    rfl
  rw [hstart]
  by_cases hex : ∃ t ∈ inp.teachers, t.teacher_code = tc
  · rcases hex with ⟨t, ht, htc⟩
    subst htc
    rw [countP_createdVars_teacher _ hwf.1 ht (fun q hne => by
      have hbe : (q.1 == t.teacher_code) = false := by simpa using hne
      simp [hbe])]
    by_cases hd : d ∈ days
    · rw [countP_teacherVars_day _ hd (fun q hne => by
        have hbe : (q.2.1 == d) = false := by simpa using hne
        simp [hbe])]
      unfold dayVars
      rw [countP_flatMap]
      have hterm : ∀ b ∈ inp.breaks,
          (cellVars inp pins t d b).countP
            (fun q => (q.1 == t.teacher_code && q.2.1 == d &&
              brIdxOf inp q.2.2.1 == idxVal) && sol q) =
          (if b.afterLesson == idxVal then
            (if eligibleCell inp pins t d b then
              inp.zones.countP (fun z => sol (t.teacher_code, d, b.id, z.id)) else 0)
           else 0) := by
        intro b hb
        rw [countP_cellVars]
        by_cases hidx : (b.afterLesson == idxVal) = true
        · rw [if_pos hidx]
          by_cases helig : eligibleCell inp pins t d b
          · rw [if_pos helig, if_pos helig]
            apply List.countP_congr
            intro z _
            simp [brIdxOf_eq hwf.2.1 hb, hidx]
          · rw [if_neg helig, if_neg helig]
        · have hfalse : (b.afterLesson == idxVal) = false := by
            rw [← Bool.not_eq_true]
            exact hidx
          rw [if_neg hidx]
          by_cases helig : eligibleCell inp pins t d b
          · rw [if_pos helig]
            apply List.countP_eq_zero.mpr
            intro z _
            simp [brIdxOf_eq hwf.2.1 hb, hfalse]
          · rw [if_neg helig]
      rw [List.map_congr_left hterm,
        sum_map_filter_of_vanish inp.breaks (fun b => b.afterLesson == idxVal) _
          (fun b _ hc => by simp [hc])]
      have hdrop : ∀ b ∈ inp.breaks.filter (fun b => b.afterLesson == idxVal),
          (if b.afterLesson == idxVal then
            (if eligibleCell inp pins t d b then
              inp.zones.countP (fun z => sol (t.teacher_code, d, b.id, z.id)) else 0)
           else 0) =
          (if eligibleCell inp pins t d b then
            inp.zones.countP (fun z => sol (t.teacher_code, d, b.id, z.id)) else 0) := by
        intro b hb
        rw [if_pos (List.mem_filter.mp hb).2]
      rw [List.map_congr_left hdrop]
      have hgs : ((inp.breaks.filter (fun b => b.afterLesson == idxVal)).map
          (fun b => if eligibleCell inp pins t d b then
            inp.zones.countP (fun z => sol (t.teacher_code, d, b.id, z.id)) else 0)).sum =
          groupSum inp pins sol t d idxVal := by
        unfold groupSum
        rw [← List.countP_eq_length_filter, countP_flatMap]
        refine congrArg List.sum (List.map_congr_left ?_)
        intro b hb
        have hbmem := (List.mem_filter.mp hb).1
        rw [List.countP_map]
        by_cases helig : eligibleCell inp pins t d b
        · rw [if_pos helig]
          apply List.countP_congr
          intro z hz
          have hmem := (mem_createdVars_iff hwf ht hd hbmem hz).mpr helig
          simp [Function.comp, hmem]
        · rw [if_neg helig]
          symm
          apply List.countP_eq_zero.mpr
          intro z hz
          have hnm : (t.teacher_code, d, b.id, z.id) ∉ createdVars inp pins :=
            fun hmem => helig ((mem_createdVars_iff hwf ht hd hbmem hz).mp hmem)
          simp [Function.comp, hnm]
      rw [hgs]
      by_cases hmem : idxVal ∈ inp.breaks.map (fun b => b.afterLesson)
      · have hconc : concurrencyOK inp pins sol = true := by
          unfold feasible at hf
          simp only [Bool.and_eq_true] at hf
          exact hf.1.1.1.1.1.2
        unfold concurrencyOK at hconc
        rw [List.all_eq_true] at hconc
        have h1 := hconc t ht
        rw [List.all_eq_true] at h1
        have h2 := h1 d hd
        rw [List.all_eq_true] at h2
        have h3 := h2 idxVal hmem
        simpa using h3
      · have hempty : inp.breaks.filter (fun b => b.afterLesson == idxVal) = [] := by
          rw [List.filter_eq_nil_iff]
          intro b hb hcontra
          exact hmem (List.mem_map.mpr ⟨b, hb, by simpa using hcontra⟩)
        unfold groupSum
        rw [hempty]
        simp
    · have h0 : (teacherVars inp pins t).countP
          (fun q => (q.1 == t.teacher_code && q.2.1 == d &&
            brIdxOf inp q.2.2.1 == idxVal) && sol q) = 0 := by
        apply List.countP_eq_zero.mpr
        intro q hq
        rcases List.mem_flatMap.mp hq with ⟨d', hd', hq'⟩
        have hqd : q.2.1 = d' := (dayVars_comp hq').2
        have hne : (q.2.1 == d) = false := by
          rw [beq_eq_false_iff_ne, hqd]
          exact fun h => hd (h ▸ hd')
        simp [hne]
      rw [h0]
      omega
  · rw [countP_createdVars_zero _ (fun t ht h => hex ⟨t, ht, h⟩) (fun q hne => by
      have hbe : (q.1 == tc) = false := by simpa using hne
      simp [hbe])]
    omega

/-- Witness for C2 on the concrete instance. -/
theorem c2_concurrency_witness :
    groupAssignedCount exInp [] exSol "T1" "Mon" 4 ≤ 1 :=
  c2_concurrency exInp [] exSol (by decide) (by decide) "T1" "Mon" 4


/-- Concrete instance for claim C1's undersupplied case: requirement 2 but
only one eligible teacher. -/
def c1Inp : SolverInput :=
  { teachers := [{ teacher_code := "T1",
                   schedule_json := [{ day := "Mon", lesson_index := 4 }] }],
    zones := [⟨"z1", "Z"⟩],
    breaks := [{ id := "b1", name := "P1", afterLesson := 4 }],
    reqs := [("z1", [("b1", 2)])] }

def c1Break : BreakInfo := { id := "b1", name := "P1", afterLesson := 4 }

def c1Zone : Zone := ⟨"z1", "Z"⟩

def c1SolEmpty : Quad → Bool := fun _ => false

/-- Counterexample to claim C1 as stated: with r = 2 and n = 1 eligible
variable, the empty solution satisfies every posted constraint (the
undersupplied slot only gets `sum ≤ n`), so a successful solve may return 0
assignments to the slot, not min(r, n) = 1. -/
theorem c1_counterexample :
    feasible c1Inp [] c1SolEmpty = true ∧
    reqFor c1Inp "z1" "b1" = 2 ∧
    (potentialTeachers c1Inp [] "Mon" c1Break c1Zone).length = 1 ∧
    slotAssignedCount c1Inp [] c1SolEmpty "Mon" c1Break c1Zone = 0 ∧
    min (reqFor c1Inp "z1" "b1")
      ((potentialTeachers c1Inp [] "Mon" c1Break c1Zone).length : Int) = 1 := by
  refine ⟨by decide, by decide, by decide, by decide, by decide⟩

theorem candLE_trans : ∀ a b c : Candidate,
    candLE a b → candLE b c → candLE a c := by
  intro a b c hab hbc
  simp only [candLE, Bool.or_eq_true, Bool.and_eq_true, decide_eq_true_eq,
    beq_iff_eq] at *
  rcases hab with h1 | ⟨h1, h2⟩ <;> rcases hbc with h3 | ⟨h3, h4⟩
  · left; omega
  · left; omega
  · left; omega
  · right; exact ⟨h1.trans h3, le_trans h2 h4⟩

theorem candLE_total : ∀ a b : Candidate, candLE a b || candLE b a := by
  intro a b
  simp only [candLE, Bool.or_eq_true, Bool.and_eq_true, decide_eq_true_eq,
    beq_iff_eq]
  rcases lt_trichotomy a.score b.score with h | h | h
  · right
    left
    exact h
  · rcases le_total a.teacher_name b.teacher_name with hn | hn
    · left
      right
      exact ⟨h, hn⟩
    · right
      right
      exact ⟨h.symm, hn⟩
  · left
    left
    exact h

/-- Claim C6: `search_candidates` scores every teacher from a base of 50
(unavailable: BUSY with final score −100, no further scoring; blocked:
WARNING and −50; every non-BUSY teacher adds `location_score − 50` plus 20
for a sandwich), and returns the full list sorted by
`(−score, teacher_name)`. -/
theorem c6_search_candidates (inp : SolverInput) (day : String) (break_index : Int)
    (zone_name : String) (tz : Zone) (tb : BreakInfo)
    (hz : (inp.zones.find? fun z =>
      pyLower (pyStrip z.name) == pyLower (pyStrip zone_name)) = some tz)
    (hb : (inp.breaks.find? fun b => b.afterLesson == break_index) = some tb) :
    List.Perm (searchCandidates inp day break_index zone_name)
      (inp.teachers.map fun t => scoreCandidate inp t day tb tz.id) ∧
    (searchCandidates inp day break_index zone_name).Pairwise
      (fun c1 c2 => candLE c1 c2 = true) ∧
    ∀ t : Teacher,
      (scoreCandidate inp t day tb tz.id).score = claimCandScore inp t day tb tz.id ∧
      (scoreCandidate inp t day tb tz.id).status = claimCandStatus t day tb ∧
      (scoreCandidate inp t day tb tz.id).teacher_code = t.teacher_code ∧
      (scoreCandidate inp t day tb tz.id).teacher_name = t.teacher_name := by
  have hsc : searchCandidates inp day break_index zone_name =
      (inp.teachers.map fun t => scoreCandidate inp t day tb tz.id).mergeSort candLE := by
    unfold searchCandidates
    rw [hz, hb]
  refine ⟨?_, ?_, ?_⟩
  · rw [hsc]
    exact List.mergeSort_perm _ candLE
  · rw [hsc]
    exact List.sorted_mergeSort candLE_trans candLE_total _
  · intro t
    unfold scoreCandidate claimCandScore claimCandStatus isSandwichBreak
    by_cases hav : isTeacherAvailable t day tb
    · by_cases hbl : isBlockedByDoubleLesson t day tb
      · by_cases hsw : ((t.schedule_json.any fun s =>
            s.day == day && s.lesson_index == tb.afterLesson) &&
            (t.schedule_json.any fun s =>
              s.day == day && s.lesson_index == tb.afterLesson + 1)) = true
        · simp [hav, hbl, hsw]
        · simp [hav, hbl, hsw]
      · by_cases hsw : ((t.schedule_json.any fun s =>
            s.day == day && s.lesson_index == tb.afterLesson) &&
            (t.schedule_json.any fun s =>
              s.day == day && s.lesson_index == tb.afterLesson + 1)) = true
        · simp [hav, hbl, hsw]
        · simp [hav, hbl, hsw]
    · simp [hav]

/-- Witness for C6 on the concrete instance (zone name matched trimmed and
case-insensitively). -/
theorem c6_search_candidates_witness :
    List.Perm (searchCandidates exInp "Mon" 4 " z ")
      (exInp.teachers.map fun t => scoreCandidate exInp t "Mon" exBreak exZone.id) ∧
    (searchCandidates exInp "Mon" 4 " z ").Pairwise
      (fun c1 c2 => candLE c1 c2 = true) ∧
    ∀ t : Teacher,
      (scoreCandidate exInp t "Mon" exBreak exZone.id).score =
        claimCandScore exInp t "Mon" exBreak exZone.id ∧
      (scoreCandidate exInp t "Mon" exBreak exZone.id).status =
        claimCandStatus t "Mon" exBreak ∧
      (scoreCandidate exInp t "Mon" exBreak exZone.id).teacher_code = t.teacher_code ∧
      (scoreCandidate exInp t "Mon" exBreak exZone.id).teacher_name = t.teacher_name :=
  c6_search_candidates exInp "Mon" 4 " z " exZone exBreak (by decide) (by decide)

end DutyScheduler
